import Mathlib

/-!
Verification development for the `go2web` HTTP client (tum-web-lab5).

This file gives a shallow embedding, in Lean 4, of the parts of the
program that the specification's testable properties talk about:

* `src/cache.py` — the dual-tier (memory + disk) response cache with TTL
  expiry and LRU eviction (`Cache.get`, `Cache.set`, `Cache.clear`,
  `Cache._cleanup_memory`, `Cache._cleanup_files`, `Cache._evict_lru`);
* `src/http_client.py` — the response parser (`HTTPClient._parse_response`),
  the redirect resolution and hop bound of `HTTPClient._make_request`, and
  the content negotiation of `HTTPClient._process_response_body` /
  `HTTPClient._format_json`;
* `src/html_parser.py` — `HTMLParser.extract_text`, which the content
  negotiator delegates to.

Modelling conventions:

* Python dicts are embedded as association lists `List (String × α)` in
  insertion order with the update-in-place / append semantics of dict
  assignment; `sorted` is embedded as a stable insertion sort.
* `time.time()` is a parameter `now : Int` of each top-level cache
  operation; the (sub-millisecond) drift between successive `time.time()`
  calls inside one operation is not observable by any property considered
  here, so one instant per operation is used.
* Disk I/O is embedded by keeping the payload files as part of the state
  (`files : List (String × String)`) and taking a fault environment that
  says which file operations raise an `OSError`-like error.  An exception
  is a `.error` value of `Except`; the state is threaded alongside so that
  partially performed mutations (Python mutates dicts in place before an
  exception escapes) are preserved.
* The cache key derivation `hashlib.md5(url).hexdigest()` is embedded as
  an abstract deterministic function `keyOf : String → String` passed in
  the configuration; no property below depends on anything but its
  determinism, so the embedding is parametric in it.
-/

set_option maxHeartbeats 1000000
set_option maxRecDepth 100000

namespace Go2Web

/-! ## Python dict and sort primitives -/

/-- Lookup in an association list (Python `d[k]` / `d.get(k)`).
Keys of a Python dict are unique, so first-match lookup is exact. -/
def dlookup (k : String) : List (String × α) → Option α
  | [] => none
  | (k1, v) :: l => if k1 = k then some v else dlookup k l

/-- Membership test (Python `k in d`). -/
def dmem (k : String) (l : List (String × α)) : Bool :=
  (dlookup k l).isSome

/-- Dict assignment `d[k] = v`: updates the value in place if the key is
present (keeping its position in insertion order), appends otherwise. -/
def dinsert (k : String) (v : α) : List (String × α) → List (String × α)
  | [] => [(k, v)]
  | (k1, v1) :: l => if k1 = k then (k, v) :: l else (k1, v1) :: dinsert k v l

/-- Dict deletion `del d[k]` (no-op when the key is absent; the call sites
in the source either guard with `in` or iterate over keys known present). -/
def derase (k : String) : List (String × α) → List (String × α)
  | [] => []
  | (k1, v1) :: l => if k1 = k then l else (k1, v1) :: derase k l

/-- Keys of a dict, in insertion order. -/
def dkeys (l : List (String × α)) : List String :=
  l.map (·.1)

/-- Stable insertion of a pair into a list sorted by the `Int` projection
`f`: the new element goes before the first strictly larger element and
after equal ones, matching the stability of Python's `sorted`. -/
def insBy (f : α → Int) (p : α) : List α → List α
  | [] => [p]
  | q :: qs => if f p < f q then p :: q :: qs else q :: insBy f p qs

/-- Stable sort by an `Int` key, embedding Python's
`sorted(items, key=...)`. -/
def sortBy (f : α → Int) : List α → List α
  | [] => []
  | p :: ps => insBy f p (sortBy f ps)

theorem insBy_perm (f : α → Int) (p : α) (l : List α) :
    (insBy f p l).Perm (p :: l) := by
  induction l with
  | nil => simp [insBy]
  | cons q qs ih =>
    by_cases h : f p < f q
    · simp [insBy, h]
    · simp only [insBy, if_neg h]
      exact (List.Perm.cons q ih).trans (List.Perm.swap p q qs)

theorem sortBy_perm (f : α → Int) (l : List α) : (sortBy f l).Perm l := by
  induction l with
  | nil => simp [sortBy]
  | cons p ps ih =>
    exact (insBy_perm f p (sortBy f ps)).trans (List.Perm.cons p ih)

theorem sortBy_length (f : α → Int) (l : List α) :
    (sortBy f l).length = l.length :=
  (sortBy_perm f l).length_eq

theorem mem_sortBy (f : α → Int) (l : List α) (a : α) :
    a ∈ sortBy f l ↔ a ∈ l :=
  (sortBy_perm f l).mem_iff

/-- Sortedness (weak, by the key) of the output of `insBy`. -/
theorem insBy_sorted (f : α → Int) (p : α) (l : List α)
    (h : l.Pairwise (fun a b => f a ≤ f b)) :
    (insBy f p l).Pairwise (fun a b => f a ≤ f b) := by
  induction l with
  | nil => simp [insBy]
  | cons q qs ih =>
    rcases List.pairwise_cons.mp h with ⟨hq, hqs⟩
    by_cases hpq : f p < f q
    · rw [insBy, if_pos hpq]
      refine List.pairwise_cons.mpr ⟨?_, h⟩
      intro b hb
      rcases List.mem_cons.mp hb with rfl | hb
      · exact le_of_lt hpq
      · exact le_trans (le_of_lt hpq) (hq b hb)
    · rw [insBy, if_neg hpq]
      refine List.pairwise_cons.mpr ⟨?_, ih hqs⟩
      intro b hb
      rcases List.mem_cons.mp ((insBy_perm f p qs).mem_iff.mp hb) with rfl | hb
      · exact le_of_not_lt hpq
      · exact hq b hb

theorem sortBy_sorted (f : α → Int) (l : List α) :
    (sortBy f l).Pairwise (fun a b => f a ≤ f b) := by
  induction l with
  | nil => simp [sortBy]
  | cons p ps ih => exact insBy_sorted f p (sortBy f ps) ih

/-- Every element in the first `n` of a sorted list has key at most that of
every element in the remainder. -/
theorem sortBy_take_le_drop (f : α → Int) (l : List α) (n : Nat)
    (a b : α) (ha : a ∈ (sortBy f l).take n) (hb : b ∈ (sortBy f l).drop n) :
    f a ≤ f b := by
  have hs := sortBy_sorted f l
  rw [← List.take_append_drop n (sortBy f l)] at hs
  have := List.pairwise_append.mp hs
  exact this.2.2 a ha b hb

/-! ## Dict lemmas -/

@[simp] theorem dkeys_nil {α : Type} : dkeys ([] : List (String × α)) = [] := rfl

@[simp] theorem dkeys_cons {α : Type} (k : String) (v : α) (l : List (String × α)) :
    dkeys ((k, v) :: l) = k :: dkeys l := rfl

theorem dlookup_eq_none {α : Type} (k : String) (l : List (String × α)) :
    dlookup k l = none ↔ k ∉ dkeys l := by
  induction l with
  | nil => simp [dlookup]
  | cons p l ih =>
    obtain ⟨k1, v⟩ := p
    by_cases h : k1 = k
    · subst h; simp [dlookup]
    · simp [dlookup, h, ih, Ne.symm h]

theorem mem_of_dlookup {α : Type} {k : String} {l : List (String × α)} {v : α}
    (h : dlookup k l = some v) : (k, v) ∈ l := by
  induction l with
  | nil => simp [dlookup] at h
  | cons p l ih =>
    obtain ⟨k1, v1⟩ := p
    by_cases hk : k1 = k
    · subst hk; simp [dlookup] at h; simp [h]
    · simp only [dlookup, if_neg hk] at h
      exact List.mem_cons_of_mem _ (ih h)

theorem mem_dkeys_of_dlookup {α : Type} {k : String} {l : List (String × α)} {v : α}
    (h : dlookup k l = some v) : k ∈ dkeys l := by
  by_contra hk
  rw [← dlookup_eq_none k l] at hk
  rw [h] at hk
  exact Option.noConfusion hk

theorem dlookup_of_mem_nodup {α : Type} {k : String} {l : List (String × α)} {v : α}
    (hnd : (dkeys l).Nodup) (h : (k, v) ∈ l) : dlookup k l = some v := by
  induction l with
  | nil => simp at h
  | cons p l ih =>
    obtain ⟨k1, v1⟩ := p
    rw [dkeys_cons, List.nodup_cons] at hnd
    rcases List.mem_cons.mp h with heq | hmem
    · rw [Prod.mk.injEq] at heq
      simp [dlookup, heq.1, heq.2]
    · have hk1 : k1 ≠ k := by
        rintro rfl
        exact hnd.1 (List.mem_map_of_mem (·.1) hmem)
      rw [dlookup, if_neg hk1]
      exact ih hnd.2 hmem

theorem dlookup_dinsert_self {α : Type} (k : String) (v : α) (l : List (String × α)) :
    dlookup k (dinsert k v l) = some v := by
  induction l with
  | nil => simp [dinsert, dlookup]
  | cons p l ih =>
    obtain ⟨k1, v1⟩ := p
    by_cases h : k1 = k
    · simp [dinsert, dlookup, h]
    · simp [dinsert, dlookup, h, ih]

theorem dlookup_dinsert_ne {α : Type} {k1 k : String} (v : α) (l : List (String × α))
    (h : k1 ≠ k) : dlookup k1 (dinsert k v l) = dlookup k1 l := by
  induction l with
  | nil => simp [dinsert, dlookup, Ne.symm h]
  | cons p l ih =>
    obtain ⟨k2, v2⟩ := p
    by_cases h2 : k2 = k
    · subst h2; simp [dinsert, dlookup, Ne.symm h]
    · by_cases h3 : k2 = k1 <;> simp [dinsert, dlookup, h2, h3, ih, h]

theorem dlookup_derase_ne {α : Type} {k1 k : String} (l : List (String × α))
    (h : k1 ≠ k) : dlookup k1 (derase k l) = dlookup k1 l := by
  induction l with
  | nil => simp [derase]
  | cons p l ih =>
    obtain ⟨k2, v2⟩ := p
    by_cases h2 : k2 = k
    · subst h2; simp [derase, dlookup, Ne.symm h]
    · by_cases h3 : k2 = k1 <;> simp [derase, dlookup, h2, h3, ih, h]

theorem derase_sublist {α : Type} (k : String) (l : List (String × α)) :
    List.Sublist (derase k l) l := by
  induction l with
  | nil => simp [derase]
  | cons p l ih =>
    obtain ⟨k1, v1⟩ := p
    by_cases h : k1 = k
    · simpa [derase, h] using List.sublist_cons_self _ _
    · rw [derase, if_neg h]
      exact List.Sublist.cons₂ (k1, v1) ih

theorem dkeys_derase_sublist {α : Type} (k : String) (l : List (String × α)) :
    List.Sublist (dkeys (derase k l)) (dkeys l) :=
  List.Sublist.map _ (derase_sublist k l)

theorem nodup_derase {α : Type} {k : String} {l : List (String × α)}
    (h : (dkeys l).Nodup) : (dkeys (derase k l)).Nodup :=
  (dkeys_derase_sublist k l).nodup h

theorem not_mem_dkeys_derase_self {α : Type} {k : String} {l : List (String × α)}
    (hnd : (dkeys l).Nodup) : k ∉ dkeys (derase k l) := by
  induction l with
  | nil => simp [derase]
  | cons p l ih =>
    obtain ⟨k1, v1⟩ := p
    rw [dkeys_cons, List.nodup_cons] at hnd
    by_cases h : k1 = k
    · subst h
      simpa [derase] using hnd.1
    · rw [derase, if_neg h, dkeys_cons]
      intro hmem
      rcases List.mem_cons.mp hmem with heq | hmem
      · exact h heq.symm
      · exact ih hnd.2 hmem

theorem mem_dkeys_derase_ne {α : Type} {k1 k : String} {l : List (String × α)}
    (h : k1 ≠ k) : k1 ∈ dkeys (derase k l) ↔ k1 ∈ dkeys l := by
  induction l with
  | nil => simp [derase]
  | cons p l ih =>
    obtain ⟨k2, v2⟩ := p
    by_cases h2 : k2 = k
    · subst h2; simp [derase, Ne.symm h, h]
    · simp [derase, h2, ih]

theorem derase_of_not_mem {α : Type} {k : String} {l : List (String × α)}
    (h : k ∉ dkeys l) : derase k l = l := by
  induction l with
  | nil => simp [derase]
  | cons p l ih =>
    obtain ⟨k1, v1⟩ := p
    rw [dkeys_cons, List.mem_cons] at h
    push_neg at h
    rw [derase, if_neg (fun heq => h.1 heq.symm), ih h.2]

theorem length_derase_of_mem {α : Type} {k : String} {l : List (String × α)}
    (h : k ∈ dkeys l) : (derase k l).length = l.length - 1 := by
  induction l with
  | nil => simp at h
  | cons p l ih =>
    obtain ⟨k1, v1⟩ := p
    by_cases h1 : k1 = k
    · simp [derase, h1]
    · have h2 : k ∈ dkeys l := by
        rcases List.mem_cons.mp (show k ∈ k1 :: dkeys l from h) with heq | hm
        · exact absurd heq.symm h1
        · exact hm
      have h3 : 1 ≤ l.length := by
        cases l with
        | nil => simp at h2
        | cons q l => simp
      rw [derase, if_neg h1, List.length_cons, List.length_cons, ih h2]
      omega

theorem mem_dinsert {α : Type} {p : String × α} {k : String} {v : α} {l : List (String × α)}
    (h : p ∈ dinsert k v l) : p = (k, v) ∨ p ∈ l := by
  induction l with
  | nil => simpa [dinsert] using h
  | cons q l ih =>
    obtain ⟨k1, v1⟩ := q
    by_cases h1 : k1 = k
    · rw [dinsert, if_pos h1] at h
      rcases List.mem_cons.mp h with h | h
      · exact Or.inl h
      · exact Or.inr (List.mem_cons_of_mem _ h)
    · rw [dinsert, if_neg h1] at h
      rcases List.mem_cons.mp h with h | h
      · exact Or.inr (by simp [h])
      · rcases ih h with h | h
        · exact Or.inl h
        · exact Or.inr (List.mem_cons_of_mem _ h)

theorem mem_dkeys_dinsert {α : Type} (k1 k : String) (v : α) (l : List (String × α)) :
    k1 ∈ dkeys (dinsert k v l) ↔ k1 = k ∨ k1 ∈ dkeys l := by
  induction l with
  | nil => simp [dinsert]
  | cons p l ih =>
    obtain ⟨k2, v2⟩ := p
    by_cases h2 : k2 = k
    · subst h2
      rw [dinsert, if_pos rfl, dkeys_cons, dkeys_cons]
      simp only [List.mem_cons]
      tauto
    · rw [dinsert, if_neg h2, dkeys_cons, dkeys_cons]
      simp only [List.mem_cons, ih]
      tauto

theorem nodup_dinsert {α : Type} {k : String} {v : α} {l : List (String × α)}
    (h : (dkeys l).Nodup) : (dkeys (dinsert k v l)).Nodup := by
  induction l with
  | nil => simp [dinsert]
  | cons p l ih =>
    obtain ⟨k1, v1⟩ := p
    rw [dkeys_cons, List.nodup_cons] at h
    by_cases h1 : k1 = k
    · subst h1
      rw [dinsert, if_pos rfl, dkeys_cons, List.nodup_cons]
      exact h
    · rw [dinsert, if_neg h1, dkeys_cons, List.nodup_cons]
      refine ⟨fun hmem => ?_, ih h.2⟩
      rcases (mem_dkeys_dinsert k1 k v l).mp hmem with h2 | h2
      · exact h1 h2
      · exact h.1 h2

theorem length_dinsert_le {α : Type} (k : String) (v : α) (l : List (String × α)) :
    (dinsert k v l).length ≤ l.length + 1 := by
  induction l with
  | nil => simp [dinsert]
  | cons p l ih =>
    obtain ⟨k1, v1⟩ := p
    by_cases h : k1 = k <;> simp [dinsert, h] <;> omega

theorem foldl_derase_sublist {α : Type} (ks : List String) (l : List (String × α)) :
    List.Sublist (ks.foldl (fun m k1 => derase k1 m) l) l := by
  induction ks generalizing l with
  | nil => simp
  | cons k ks ih =>
    exact List.Sublist.trans (ih (derase k l)) (derase_sublist k l)

theorem nodup_foldl_derase {α : Type} {ks : List String} {l : List (String × α)}
    (h : (dkeys l).Nodup) : (dkeys (ks.foldl (fun m k1 => derase k1 m) l)).Nodup := by
  have hs : List.Sublist (dkeys (ks.foldl (fun m k1 => derase k1 m) l)) (dkeys l) :=
    List.Sublist.map _ (foldl_derase_sublist ks l)
  exact hs.nodup h

theorem dlookup_foldl_derase_notmem {α : Type} {k : String} {ks : List String}
    {l : List (String × α)} (h : k ∉ ks) :
    dlookup k (ks.foldl (fun m k1 => derase k1 m) l) = dlookup k l := by
  induction ks generalizing l with
  | nil => rfl
  | cons k1 ks ih =>
    rw [List.mem_cons] at h
    push_neg at h
    rw [List.foldl_cons, ih h.2, dlookup_derase_ne l h.1]

theorem mem_dkeys_foldl_derase_notmem {α : Type} {k : String} {ks : List String}
    {l : List (String × α)} (h : k ∉ ks) :
    k ∈ dkeys (ks.foldl (fun m k1 => derase k1 m) l) ↔ k ∈ dkeys l := by
  induction ks generalizing l with
  | nil => rfl
  | cons k1 ks ih =>
    rw [List.mem_cons] at h
    push_neg at h
    rw [List.foldl_cons, ih h.2, mem_dkeys_derase_ne h.1]

theorem not_mem_dkeys_foldl_derase {α : Type} {k : String} {ks : List String}
    {l : List (String × α)} (hnd : (dkeys l).Nodup) (hk : k ∈ ks) :
    k ∉ dkeys (ks.foldl (fun m k1 => derase k1 m) l) := by
  induction ks generalizing l with
  | nil => simp at hk
  | cons k1 ks ih =>
    rw [List.foldl_cons]
    by_cases hmem : k ∈ ks
    · exact ih (nodup_derase hnd) hmem
    · have hk1 : k = k1 := by
        rcases List.mem_cons.mp hk with h | h
        · exact h
        · exact absurd h hmem
      subst hk1
      intro hcon
      rw [mem_dkeys_foldl_derase_notmem hmem] at hcon
      exact not_mem_dkeys_derase_self hnd hcon

theorem length_foldl_derase {α : Type} {ks : List String} {l : List (String × α)}
    (hks : ks.Nodup) (hmem : ∀ k ∈ ks, k ∈ dkeys l) (hnd : (dkeys l).Nodup) :
    (ks.foldl (fun m k1 => derase k1 m) l).length = l.length - ks.length := by
  induction ks generalizing l with
  | nil => simp
  | cons k ks ih =>
    rw [List.nodup_cons] at hks
    have hk : k ∈ dkeys l := hmem k (List.mem_cons_self k ks)
    have hrest : ∀ k1 ∈ ks, k1 ∈ dkeys (derase k l) := by
      intro k1 hk1
      have hne : k1 ≠ k := fun heq => hks.1 (heq ▸ hk1)
      exact (mem_dkeys_derase_ne hne).mpr (hmem k1 (List.mem_cons_of_mem _ hk1))
    rw [List.foldl_cons, ih hks.2 hrest (nodup_derase hnd), length_derase_of_mem hk,
      List.length_cons]
    omega
/-! ## Cache model (`src/cache.py`)

The `Cache` object's mutable attributes become a `CacheState`; the on-disk
payload files (`{key}.cache`) are part of the state.  The persisted index
file `cache_index.json` only matters across process restarts (it is loaded
once in `__init__`), and no property here spans a restart, so `_save_index`
(which swallows every exception and does not change any in-process
attribute) has no effect in the model and `file_index` is the live dict. -/

/-- Value stored in `Cache.file_index` for one key
(`{'url': ..., 'timestamp': ..., 'access_time': ...}`). -/
structure FileEntry where
  url : String
  timestamp : Int
  access_time : Int
deriving Repr, DecidableEq

/-- Mutable state of a `Cache` object plus the payload files on disk. -/
structure CacheState where
  memory_cache : List (String × (String × Int))
  access_times : List (String × Int)
  file_index : List (String × FileEntry)
  files : List (String × String)
deriving Repr, DecidableEq

/-- Empty state: a freshly constructed `Cache` with a fresh directory. -/
def CacheState.empty : CacheState := ⟨[], [], [], []⟩

/-- Configuration of a `Cache` (`__init__` arguments).  `disk` says whether
a `cache_dir` was given; `keyOf` is `_get_cache_key` (the md5-hex
fingerprint), kept abstract since only its determinism matters. -/
structure CacheConfig where
  ttl : Int
  max_size : Nat
  disk : Bool
  keyOf : String → String

/-- Per-operation environment: the current `time.time()` value and which
file operations fail.  `unlinkErr k` means `unlink` on `k.cache` raises an
`OSError` other than `FileNotFoundError` (e.g. `PermissionError`);
`readErr k` / `writeErr k` mean opening `k.cache` for reading / writing
raises. -/
structure Env where
  now : Int
  unlinkErr : String → Bool
  readErr : String → Bool
  writeErr : String → Bool

/-- A no-fault environment at time `now`. -/
def Env.clean (now : Int) : Env :=
  ⟨now, fun _ => false, fun _ => false, fun _ => false⟩

/-- Age check `Cache._is_expired` (cache.py:67-69):
`time.time() - timestamp > self.ttl`. -/
def isExpired (cfg : CacheConfig) (now ts : Int) : Bool :=
  now - ts > cfg.ttl

/-- Expiry sweep of the memory tier, `Cache._cleanup_memory`
(cache.py:71-83): collect the keys whose age exceeds `ttl`, then delete
each from `memory_cache` and (when present) from `access_times`. -/
def cleanupMemory (cfg : CacheConfig) (env : Env) (s : CacheState) : CacheState :=
  let expired := (s.memory_cache.filter fun p => isExpired cfg env.now p.2.2).map (·.1)
  { s with
    memory_cache := expired.foldl (fun m k => derase k m) s.memory_cache
    access_times := expired.foldl (fun m k => derase k m) s.access_times }

/-- The delete loop shared (textually duplicated in the source) by
`Cache._cleanup_files` (cache.py:97-106) and the file half of
`Cache._evict_lru` (cache.py:132-138): for each key, `unlink` the payload
file — catching only `FileNotFoundError` — then `del self.file_index[key]`.
Any other unlink error propagates, leaving the mutations already made. -/
def removeFilesLoop (env : Env) : List String → CacheState → Except Unit Unit × CacheState
  | [], s => (.ok (), s)
  | k :: ks, s =>
    if env.unlinkErr k then (.error (), s)
    else removeFilesLoop env ks
      { s with files := derase k s.files, file_index := derase k s.file_index }

/-- Expiry sweep of the disk tier, `Cache._cleanup_files` (cache.py:85-109):
no-op without a cache directory; otherwise collect the expired index keys
and run the delete loop.  The trailing `_save_index` has no in-process
effect. -/
def cleanupFiles (cfg : CacheConfig) (env : Env) (s : CacheState) :
    Except Unit Unit × CacheState :=
  if cfg.disk then
    let expired := (s.file_index.filter fun p => isExpired cfg env.now p.2.timestamp).map (·.1)
    removeFilesLoop env expired s
  else (.ok (), s)

/-- Memory half of `Cache._evict_lru` (cache.py:113-122): when
`len(memory_cache) >= max_size`, sort `access_times.items()` by value
(stable), and delete the first `len(memory_cache) - max_size + 1` keys from
both dicts (`del self.access_times[key]` is unconditional in the source; it
cannot raise because the keys come from `access_times` itself, whose dict
keys are unique). -/
def evictMemory (cfg : CacheConfig) (s : CacheState) : CacheState :=
  if s.memory_cache.length ≥ cfg.max_size then
    { s with
      memory_cache :=
        (((sortBy (fun p => p.2) s.access_times).take
          (s.memory_cache.length - cfg.max_size + 1)).map (·.1)).foldl
          (fun m k => derase k m) s.memory_cache
      access_times :=
        (((sortBy (fun p => p.2) s.access_times).take
          (s.memory_cache.length - cfg.max_size + 1)).map (·.1)).foldl
          (fun m k => derase k m) s.access_times }
  else s

/-- File half of `Cache._evict_lru` (cache.py:124-140): when a cache
directory is configured and `len(file_index) >= max_size`, sort the index
items by `access_time` and delete the oldest through the unlink loop
(whose non-file-not-found unlink errors propagate). -/
def evictFiles (cfg : CacheConfig) (env : Env) (s1 : CacheState) :
    Except Unit Unit × CacheState :=
  if cfg.disk ∧ s1.file_index.length ≥ cfg.max_size then
    removeFilesLoop env
      (((sortBy (fun p => p.2.access_time) s1.file_index).take
        (s1.file_index.length - cfg.max_size + 1)).map (·.1)) s1
  else (.ok (), s1)

/-- LRU eviction, `Cache._evict_lru` (cache.py:111-140): the memory half
followed by the file half. -/
def evictLru (cfg : CacheConfig) (env : Env) (s : CacheState) :
    Except Unit Unit × CacheState :=
  evictFiles cfg env (evictMemory cfg s)

/-- Disk half of `Cache.get` (cache.py:163-182): when a cache directory is
configured and the key is in the index and not expired, try to read the
payload file; on success update the entry's `access_time` in place and
return the data; on any read failure remove the entry from the index
(self-healing) and fall through to `return None`. -/
def getDisk (cfg : CacheConfig) (env : Env) (ck : String) (s : CacheState) :
    Except Unit (Option String) × CacheState :=
  if cfg.disk then
    match dlookup ck s.file_index with
    | some e =>
      if isExpired cfg env.now e.timestamp then (.ok none, s)
      else
        match (if env.readErr ck then none else dlookup ck s.files) with
        | some data =>
          (.ok (some data),
            { s with file_index := dinsert ck { e with access_time := env.now } s.file_index })
        | none => (.ok none, { s with file_index := derase ck s.file_index })
    | none => (.ok none, s)
  else (.ok none, s)

/-- Memory-tier check of `Cache.get` (cache.py:152-161), taking the result
of `cache_key in self.memory_cache` / `self.memory_cache[cache_key]` as its
`Option` argument: a fresh hit updates `access_times` and returns the data;
a stale hit is deleted from both memory dicts and control falls through to
the disk tier; a miss goes to the disk tier directly. -/
def getMemCase (cfg : CacheConfig) (env : Env) (url : String) (s2 : CacheState) :
    Option (String × Int) → Except Unit (Option String) × CacheState
  | some (data, ts) =>
    if isExpired cfg env.now ts then
      getDisk cfg env (cfg.keyOf url)
        { s2 with
          memory_cache := derase (cfg.keyOf url) s2.memory_cache
          access_times := derase (cfg.keyOf url) s2.access_times }
    else
      (.ok (some data),
        { s2 with access_times := dinsert (cfg.keyOf url) env.now s2.access_times })
  | none => getDisk cfg env (cfg.keyOf url) s2

/-- Continuation of `Cache.get` after the two expiry sweeps: a propagating
sweep exception aborts `get` with the state as mutated so far; otherwise
the memory tier is consulted. -/
def getAfterSweep (cfg : CacheConfig) (env : Env) (url : String) :
    Except Unit Unit × CacheState → Except Unit (Option String) × CacheState
  | (.error _, s2) => (.error (), s2)
  | (.ok _, s2) => getMemCase cfg env url s2 (dlookup (cfg.keyOf url) s2.memory_cache)

/-- `Cache.get` (cache.py:142-182).  Sweeps both tiers (the disk sweep's
unlink errors other than file-not-found propagate: the call is not guarded
by a `try`), then checks the memory tier and falls back to the disk tier.
The body is split into `getMemCase`/`getAfterSweep`/`getDisk` along the
source's control flow. -/
def getOp (cfg : CacheConfig) (env : Env) (s : CacheState) (url : String) :
    Except Unit (Option String) × CacheState :=
  getAfterSweep cfg env url (cleanupFiles cfg env (cleanupMemory cfg env s))

/-- `Cache.set` (cache.py:184-213).  Returns immediately on an empty
payload (`if not data: return`).  Otherwise runs LRU eviction (whose unlink
errors propagate), stores into the memory tier, then — inside one
`try/except Exception: pass` — writes the payload file and updates the
index, so a disk write failure leaves the disk tier untouched and is
swallowed. -/
def setAfterEvict (cfg : CacheConfig) (env : Env) (url data : String) :
    Except Unit Unit × CacheState → Except Unit Unit × CacheState
  | (.error _, s1) => (.error (), s1)
  | (.ok _, s1) =>
      if cfg.disk then
        if env.writeErr (cfg.keyOf url) then
          (.ok (),
            { s1 with
              memory_cache := dinsert (cfg.keyOf url) (data, env.now) s1.memory_cache
              access_times := dinsert (cfg.keyOf url) env.now s1.access_times })
        else
          (.ok (),
            { s1 with
              memory_cache := dinsert (cfg.keyOf url) (data, env.now) s1.memory_cache
              access_times := dinsert (cfg.keyOf url) env.now s1.access_times
              files := dinsert (cfg.keyOf url) data s1.files
              file_index := dinsert (cfg.keyOf url) ⟨url, env.now, env.now⟩ s1.file_index })
      else
        (.ok (),
          { s1 with
            memory_cache := dinsert (cfg.keyOf url) (data, env.now) s1.memory_cache
            access_times := dinsert (cfg.keyOf url) env.now s1.access_times })

/-- `Cache.set` entry point: the empty-payload no-op guard
(`if not data: return`), then LRU eviction followed by the stores. -/
def setOp (cfg : CacheConfig) (env : Env) (s : CacheState) (url data : String) :
    Except Unit Unit × CacheState :=
  if data = "" then (.ok (), s)
  else setAfterEvict cfg env url data (evictLru cfg env s)

/-- Unlink loop of `Cache.clear` (cache.py:225-226): delete the payload
files in order until one raises; report whether the loop completed and
return the surviving files. -/
def clearFiles (env : Env) : List (String × String) → Bool × List (String × String)
  | [] => (true, [])
  | (k, v) :: fs => if env.unlinkErr k then (false, (k, v) :: fs) else clearFiles env fs

/-- Disk-tier state update of `Cache.clear` given the unlink loop's
outcome: when the loop completed, `self.file_index.clear()` runs; when it
aborted (exception swallowed by the `except`), the index keeps all its
entries. -/
def clearDisk (s1 : CacheState) : Bool × List (String × String) → CacheState
  | (true, fs) => { s1 with files := fs, file_index := [] }
  | (false, fs) => { s1 with files := fs }

/-- `Cache.clear` (cache.py:215-232): empties both memory dicts, then —
inside one `try/except Exception: pass` — unlinks every payload file and
clears the index.  If an unlink raises midway, the remaining files stay,
the index is NOT cleared, and the exception is swallowed, so `clear` never
raises. -/
def clearOp (cfg : CacheConfig) (env : Env) (s : CacheState) :
    Except Unit Unit × CacheState :=
  if cfg.disk then
    (.ok (),
      clearDisk { s with memory_cache := [], access_times := [] }
        (clearFiles env s.files))
  else (.ok (), { s with memory_cache := [], access_times := [] })

/-! ## Cache operation lemmas -/

/-- Key uniqueness of each dict of a cache state.  Every state reachable
through Python dict operations satisfies this (a `dict` cannot hold a key
twice); theorems that quantify over arbitrary states take it as a
hypothesis. -/
def CacheState.WF (s : CacheState) : Prop :=
  (dkeys s.memory_cache).Nodup ∧ (dkeys s.access_times).Nodup ∧
  (dkeys s.file_index).Nodup ∧ (dkeys s.files).Nodup

instance (s : CacheState) : Decidable s.WF := by
  unfold CacheState.WF; infer_instance

theorem mem_dkeys_of_mem {α : Type} {p : String × α} {l : List (String × α)}
    (h : p ∈ l) : p.1 ∈ dkeys l :=
  List.mem_map_of_mem (·.1) h

/-- Entries surviving a collect-then-delete sweep were already present and
do not satisfy the collection predicate. -/
theorem foldl_derase_filter_post {α : Type} (P : String × α → Bool)
    (l : List (String × α)) (hnd : (dkeys l).Nodup) (p : String × α)
    (hp : p ∈ ((l.filter P).map (·.1)).foldl (fun m k => derase k m) l) :
    p ∈ l ∧ P p = false := by
  have hmem : p ∈ l := (foldl_derase_sublist _ l).mem hp
  refine ⟨hmem, ?_⟩
  by_contra hP
  have hPt : P p = true := by
    cases hPb : P p
    · exact absurd hPb hP
    · rfl
  have hk : p.1 ∈ (l.filter P).map (·.1) :=
    List.mem_map_of_mem (·.1) (List.mem_filter.mpr ⟨hmem, hPt⟩)
  exact not_mem_dkeys_foldl_derase hnd hk (mem_dkeys_of_mem hp)

/-- A lookup that finds a fresh entry is unchanged by a collect-then-delete
sweep that only collects entries failing the freshness condition. -/
theorem dlookup_foldl_derase_filter {α : Type} (P : String × α → Bool)
    (l : List (String × α)) (hnd : (dkeys l).Nodup) (k : String) (v : α)
    (hv : dlookup k l = some v) (hfresh : P (k, v) = false) :
    dlookup k (((l.filter P).map (·.1)).foldl (fun m k1 => derase k1 m) l) = some v := by
  have hnotmem : k ∉ (l.filter P).map (·.1) := by
    intro hk
    rcases List.mem_map.mp hk with ⟨q, hq, hq1⟩
    rcases List.mem_filter.mp hq with ⟨hql, hqP⟩
    have : q = (k, v) := by
      obtain ⟨qk, qv⟩ := q
      cases hq1
      have := dlookup_of_mem_nodup hnd hql
      rw [hv] at this
      cases this
      rfl
    rw [this, hfresh] at hqP
    exact Bool.noConfusion hqP
  rw [dlookup_foldl_derase_notmem hnotmem, hv]

/-- Behaviour of the shared unlink/delete loop: some prefix `ks1` of the
key list is processed (erasing each key from the index and the files); the
loop reports success exactly when the whole list was processed, and it
stops early only at a key whose unlink faults. -/
theorem removeFilesLoop_spec (env : Env) (ks : List String) (s : CacheState) :
    ∃ ks1 ks2,
      ks = ks1 ++ ks2 ∧
      (removeFilesLoop env ks s).2 =
        { s with
          file_index := ks1.foldl (fun m k => derase k m) s.file_index
          files := ks1.foldl (fun m k => derase k m) s.files } ∧
      ((removeFilesLoop env ks s).1 = .ok () ↔ ks2 = []) ∧
      (ks2 = [] ∨ ∃ k ks3, ks2 = k :: ks3 ∧ env.unlinkErr k = true) := by
  induction ks generalizing s with
  | nil =>
    refine ⟨[], [], rfl, ?_, by simp [removeFilesLoop], Or.inl rfl⟩
    simp [removeFilesLoop]
  | cons k ks ih =>
    by_cases hf : env.unlinkErr k
    · refine ⟨[], k :: ks, rfl, ?_, ?_, Or.inr ⟨k, ks, rfl, hf⟩⟩
      · simp [removeFilesLoop, hf]
      · simp [removeFilesLoop, hf]
    · rcases ih { s with files := derase k s.files, file_index := derase k s.file_index }
        with ⟨ks1, ks2, hks, hstate, hok, herr⟩
      refine ⟨k :: ks1, ks2, by rw [hks]; rfl, ?_, ?_, herr⟩
      · rw [removeFilesLoop, if_neg hf, hstate]
        simp
      · rw [removeFilesLoop, if_neg hf]
        exact hok

/-- With no unlink faults the loop always succeeds. -/
theorem removeFilesLoop_clean (env : Env) (ks : List String) (s : CacheState)
    (h : ∀ k, env.unlinkErr k = false) :
    removeFilesLoop env ks s =
      (.ok (),
        { s with
          file_index := ks.foldl (fun m k => derase k m) s.file_index
          files := ks.foldl (fun m k => derase k m) s.files }) := by
  rcases removeFilesLoop_spec env ks s with ⟨ks1, ks2, hks, hstate, hok, herr⟩
  rcases herr with h2 | ⟨k, ks3, hk, hfault⟩
  · subst h2
    rw [List.append_nil] at hks
    subst hks
    rcases hr : removeFilesLoop env ks s with ⟨e, s2⟩
    rw [hr] at hstate hok
    simp only at hstate hok
    cases e with
    | ok u => cases u; rw [hstate]
    | error u => simp at hok
  · rw [h k] at hfault
    exact Bool.noConfusion hfault

/-- The unlink/delete loop never touches the memory tier dicts. -/
theorem removeFilesLoop_memory (env : Env) (ks : List String) (s : CacheState) :
    (removeFilesLoop env ks s).2.memory_cache = s.memory_cache ∧
    (removeFilesLoop env ks s).2.access_times = s.access_times := by
  rcases removeFilesLoop_spec env ks s with ⟨ks1, ks2, hks, hstate, hok, herr⟩
  rw [hstate]
  exact ⟨rfl, rfl⟩

/-- Frame facts for the disk half of `get`: the memory tier and the files
are untouched, the call never raises, and every surviving index entry
either was present unchanged or is the hit entry with only its
`access_time` refreshed (and its freshness established by the guard). -/
theorem getDisk_spec (cfg : CacheConfig) (env : Env) (ck : String) (s : CacheState) :
    (∃ r, (getDisk cfg env ck s).1 = .ok r) ∧
    (getDisk cfg env ck s).2.memory_cache = s.memory_cache ∧
    (getDisk cfg env ck s).2.access_times = s.access_times ∧
    (getDisk cfg env ck s).2.files = s.files ∧
    (∀ p, p ∈ (getDisk cfg env ck s).2.file_index →
      p ∈ s.file_index ∨
      (p.1 = ck ∧ isExpired cfg env.now p.2.timestamp = false ∧
        p.2.access_time = env.now ∧
        ∃ e, dlookup ck s.file_index = some e ∧ p.2.url = e.url ∧
          p.2.timestamp = e.timestamp)) := by
  unfold getDisk
  by_cases hd : cfg.disk = true
  · rw [if_pos hd]
    cases hl : dlookup ck s.file_index with
    | none => exact ⟨⟨none, rfl⟩, rfl, rfl, rfl, fun p hp => Or.inl hp⟩
    | some e =>
      dsimp only
      cases hexp : isExpired cfg env.now e.timestamp with
      | true =>
        rw [if_pos rfl]
        exact ⟨⟨none, rfl⟩, rfl, rfl, rfl, fun p hp => Or.inl hp⟩
      | false =>
        rw [if_neg Bool.false_ne_true]
        cases hread : (if env.readErr ck = true then none else dlookup ck s.files) with
        | some data =>
          refine ⟨⟨some data, rfl⟩, rfl, rfl, rfl, fun p hp => ?_⟩
          rcases mem_dinsert hp with hp | hp
          · subst hp
            exact Or.inr ⟨rfl, hexp, rfl, e, rfl, rfl, rfl⟩
          · exact Or.inl hp
        | none =>
          refine ⟨⟨none, rfl⟩, rfl, rfl, rfl, fun p hp => ?_⟩
          exact Or.inl ((derase_sublist ck s.file_index).mem hp)
  · rw [if_neg hd]
    exact ⟨⟨none, rfl⟩, rfl, rfl, rfl, fun p hp => Or.inl hp⟩

/-- With no unlink faults, LRU eviction always succeeds. -/
theorem evictFiles_clean_ok (cfg : CacheConfig) (env : Env) (s1 : CacheState)
    (h : ∀ k, env.unlinkErr k = false) :
    ∃ s2, evictFiles cfg env s1 = (.ok (), s2) := by
  unfold evictFiles
  by_cases hc : cfg.disk = true ∧ s1.file_index.length ≥ cfg.max_size
  · rw [if_pos hc, removeFilesLoop_clean _ _ _ h]
    exact ⟨_, rfl⟩
  · rw [if_neg hc]
    exact ⟨_, rfl⟩

theorem evictLru_clean_ok (cfg : CacheConfig) (env : Env) (s : CacheState)
    (h : ∀ k, env.unlinkErr k = false) :
    ∃ s1, evictLru cfg env s = (.ok (), s1) :=
  evictFiles_clean_ok cfg env (evictMemory cfg s) h

/-- LRU eviction only removes memory-tier entries (whatever the fault
behaviour), so memory keys and values survive as a sublist. -/
theorem evictFiles_memory (cfg : CacheConfig) (env : Env) (s1 : CacheState) :
    (evictFiles cfg env s1).2.memory_cache = s1.memory_cache ∧
    (evictFiles cfg env s1).2.access_times = s1.access_times := by
  unfold evictFiles
  split
  · exact removeFilesLoop_memory _ _ _
  · exact ⟨rfl, rfl⟩

theorem evictMemory_sub (cfg : CacheConfig) (s : CacheState) :
    List.Sublist (evictMemory cfg s).memory_cache s.memory_cache ∧
    List.Sublist (evictMemory cfg s).access_times s.access_times := by
  unfold evictMemory
  split
  · exact ⟨foldl_derase_sublist _ _, foldl_derase_sublist _ _⟩
  · exact ⟨List.Sublist.refl _, List.Sublist.refl _⟩

theorem evictLru_memory_sub (cfg : CacheConfig) (env : Env) (s : CacheState) :
    List.Sublist (evictLru cfg env s).2.memory_cache s.memory_cache := by
  rw [evictLru, (evictFiles_memory cfg env _).1]
  exact (evictMemory_sub cfg s).1

/-- After the two sweeps at the top of `get`, a fresh memory entry is still
present and the result of the sweeps is a success whenever no unlink
faults. -/
theorem getOp_memory_hit (cfg : CacheConfig) (env : Env) (s : CacheState)
    (url data : String) (ts : Int)
    (hnd : (dkeys s.memory_cache).Nodup)
    (hcl : ∀ k, env.unlinkErr k = false)
    (hl : dlookup (cfg.keyOf url) s.memory_cache = some (data, ts))
    (hfresh : isExpired cfg env.now ts = false) :
    (getOp cfg env s url).1 = .ok (some data) := by
  have hlm : dlookup (cfg.keyOf url) (cleanupMemory cfg env s).memory_cache =
      some (data, ts) := by
    exact dlookup_foldl_derase_filter (fun p => isExpired cfg env.now p.2.2)
      s.memory_cache hnd (cfg.keyOf url) (data, ts) hl hfresh
  have hcf : ∃ s2 : CacheState,
      cleanupFiles cfg env (cleanupMemory cfg env s) = (.ok (), s2) ∧
      s2.memory_cache = (cleanupMemory cfg env s).memory_cache := by
    by_cases hd : cfg.disk = true
    · rw [cleanupFiles, if_pos hd, removeFilesLoop_clean _ _ _ hcl]
      exact ⟨_, rfl, rfl⟩
    · rw [cleanupFiles, if_neg hd]
      exact ⟨_, rfl, rfl⟩
  rcases hcf with ⟨s2, hcf, hs2⟩
  rw [getOp, hcf, getAfterSweep, hs2, hlm, getMemCase, hfresh, if_neg Bool.false_ne_true]

/--
C9.  For every URL and non-empty payload, `set(url, payload)` followed
immediately by `get(url)` (within the TTL, i.e. the age of the stored
entry does not exceed `ttl` at the time of the `get`) returns the
identical payload; and `set` with an empty payload returns leaving the
whole cache state — both tiers included — unchanged.  The two operations
are run with fault-free unlink behaviour (an unlink fault would abort
`set`, which claim C2 covers); read and write faults are arbitrary.
-/
theorem C9_set_get_round_trip (cfg : CacheConfig) (s : CacheState)
    (url url2 data : String) (e1 e2 : Env)
    (hWF : s.WF) (hdata : data ≠ "")
    (h1 : ∀ k, e1.unlinkErr k = false) (h2 : ∀ k, e2.unlinkErr k = false)
    (hfresh : isExpired cfg e2.now e1.now = false) :
    (∃ sset, setOp cfg e1 s url data = (.ok (), sset) ∧
      (getOp cfg e2 sset url).1 = .ok (some data)) ∧
    setOp cfg e1 s url2 "" = (.ok (), s) := by
  constructor
  · rcases evictLru_clean_ok cfg e1 s h1 with ⟨s1, hev⟩
    have hnd1 : (dkeys s1.memory_cache).Nodup := by
      have hs := evictLru_memory_sub cfg e1 s
      rw [hev] at hs
      have hsub : List.Sublist (dkeys s1.memory_cache) (dkeys s.memory_cache) :=
        List.Sublist.map _ hs
      exact hsub.nodup hWF.1
    have hget : ∀ sset : CacheState,
        sset.memory_cache = dinsert (cfg.keyOf url) (data, e1.now) s1.memory_cache →
        (getOp cfg e2 sset url).1 = .ok (some data) := by
      intro sset hm
      refine getOp_memory_hit cfg e2 sset url data e1.now ?_ h2 ?_ hfresh
      · rw [hm]; exact nodup_dinsert hnd1
      · rw [hm]; exact dlookup_dinsert_self _ _ _
    rw [setOp, if_neg hdata, hev, setAfterEvict]
    by_cases hd : cfg.disk = true
    · rw [if_pos hd]
      by_cases hw : e1.writeErr (cfg.keyOf url) = true
      · rw [if_pos hw]
        exact ⟨_, rfl, hget _ rfl⟩
      · rw [if_neg hw]
        exact ⟨_, rfl, hget _ rfl⟩
    · rw [if_neg hd]
      exact ⟨_, rfl, hget _ rfl⟩
  · rfl

/-- Witness for C9 at a concrete configuration and state. -/
theorem C9_witness :
    (∃ sset,
      setOp ⟨300, 100, false, fun u => u⟩ (Env.clean 1000) CacheState.empty
        "http://example.com" "rendered page" = (.ok (), sset) ∧
      (getOp ⟨300, 100, false, fun u => u⟩ (Env.clean 1001) sset
        "http://example.com").1 = .ok (some "rendered page")) ∧
    setOp ⟨300, 100, false, fun u => u⟩ (Env.clean 1000) CacheState.empty
      "http://other.com" "" = (.ok (), CacheState.empty) :=
  C9_set_get_round_trip ⟨300, 100, false, fun u => u⟩ CacheState.empty
    "http://example.com" "http://other.com" "rendered page"
    (Env.clean 1000) (Env.clean 1001)
    (by decide) (by decide) (fun k => rfl) (fun k => rfl) (by decide)

/--
C1 counterexample.  The claim says a `set` call also triggers the expiry
sweep, so an entry whose age exceeds `ttl` is absent after the next `set`.
In the code `Cache.set` only runs `_evict_lru`, never `_cleanup_memory` /
`_cleanup_files`: with `ttl = 300`, an entry of age `1000 - 0 > 300` in the
memory tier survives a `set` of a different URL untouched.
-/
theorem C1_counterexample :
    isExpired ⟨300, 100, false, fun u => u⟩ 1000 0 = true ∧
    (setOp ⟨300, 100, false, fun u => u⟩ (Env.clean 1000)
        ⟨[("stale", ("old", 0))], [("stale", 0)], [], []⟩ "fresh" "new").2.memory_cache =
      [("stale", ("old", 0)), ("fresh", ("new", 1000))] := by
  exact ⟨by decide, by decide⟩

/-- Common part of the amended C1: after a successful sweep pair at the top
of `get`, the state delivered to the rest of `get` has no expired entry in
either tier. -/
theorem cleanupFiles_post (cfg : CacheConfig) (env : Env) (s : CacheState)
    (hWF : s.WF) (e2 : Unit) (s2 : CacheState)
    (hcf : cleanupFiles cfg env (cleanupMemory cfg env s) = (.ok e2, s2)) :
    s2.memory_cache = (cleanupMemory cfg env s).memory_cache ∧
    (cfg.disk = true → ∀ p ∈ s2.file_index, isExpired cfg env.now p.2.timestamp = false) := by
  by_cases hd : cfg.disk = true
  · rw [cleanupFiles, if_pos hd] at hcf
    rcases removeFilesLoop_spec env
        ((List.filter (fun p => isExpired cfg env.now p.2.timestamp)
          (cleanupMemory cfg env s).file_index).map (·.1))
        (cleanupMemory cfg env s) with ⟨ks1, ks2, hks, hstate, hokk, herr⟩
    rw [hcf] at hstate hokk
    simp only at hstate hokk
    have hks2 : ks2 = [] := hokk.mp trivial
    subst hks2
    rw [List.append_nil] at hks
    subst hks
    rw [hstate]
    refine ⟨rfl, fun _ p hp => ?_⟩
    dsimp only at hp
    have hfi : (cleanupMemory cfg env s).file_index = s.file_index := rfl
    rw [hfi] at hp
    exact (foldl_derase_filter_post (fun p => isExpired cfg env.now p.2.timestamp)
      s.file_index hWF.2.2.1 p hp).2
  · rw [cleanupFiles, if_neg hd] at hcf
    obtain ⟨-, rfl⟩ := Prod.mk.injEq .. ▸ hcf
    exact ⟨rfl, fun hdt => absurd hdt hd⟩

/--
C1 (amended).  An entry whose age exceeds `ttl` seconds is absent from both
tiers after the next successful `get` call: `get` runs the expiry sweep
over both tiers (and its own staleness checks), so the post-state contains
no expired entry in the memory tier, nor in the disk index when a cache
directory is configured.  `set`, however, does not trigger the sweep (see
the counterexample): only `get` does.
-/
theorem C1_ttl_expiry (cfg : CacheConfig) (env : Env) (s : CacheState)
    (url : String) (r : Option String) (s1 : CacheState)
    (hWF : s.WF) (hok : getOp cfg env s url = (.ok r, s1)) :
    (∀ p ∈ s1.memory_cache, isExpired cfg env.now p.2.2 = false) ∧
    (cfg.disk = true → ∀ p ∈ s1.file_index, isExpired cfg env.now p.2.timestamp = false) := by
  have hmpost : ∀ p ∈ (cleanupMemory cfg env s).memory_cache,
      isExpired cfg env.now p.2.2 = false := by
    intro p hp
    have hmc : (cleanupMemory cfg env s).memory_cache =
        ((s.memory_cache.filter fun p => isExpired cfg env.now p.2.2).map (·.1)).foldl
          (fun m k => derase k m) s.memory_cache := rfl
    rw [hmc] at hp
    exact (foldl_derase_filter_post (fun p => isExpired cfg env.now p.2.2)
      s.memory_cache hWF.1 p hp).2
  rcases hcfr : cleanupFiles cfg env (cleanupMemory cfg env s) with ⟨ec, s2⟩
  rw [getOp, hcfr] at hok
  cases ec with
  | error u =>
    rw [getAfterSweep] at hok
    exact absurd hok (by simp)
  | ok u =>
    rw [getAfterSweep] at hok
    obtain ⟨hs2mem, hs2idx⟩ := cleanupFiles_post cfg env s hWF u s2 hcfr
    have hmpost2 : ∀ p ∈ s2.memory_cache, isExpired cfg env.now p.2.2 = false := by
      rw [hs2mem]; exact hmpost
    have hdiskcase : ∀ st : CacheState,
        (∀ p ∈ st.memory_cache, isExpired cfg env.now p.2.2 = false) →
        (cfg.disk = true → ∀ p ∈ st.file_index, isExpired cfg env.now p.2.timestamp = false) →
        getDisk cfg env (cfg.keyOf url) st = (.ok r, s1) →
        (∀ p ∈ s1.memory_cache, isExpired cfg env.now p.2.2 = false) ∧
        (cfg.disk = true → ∀ p ∈ s1.file_index, isExpired cfg env.now p.2.timestamp = false) := by
      intro st hm hf hgd
      have hspec := getDisk_spec cfg env (cfg.keyOf url) st
      have hs1 : (getDisk cfg env (cfg.keyOf url) st).2 = s1 := by rw [hgd]
      rw [hs1] at hspec
      refine ⟨fun p hp => hm p (by rw [← hspec.2.1]; exact hp), fun hd p hp => ?_⟩
      rcases hspec.2.2.2.2 p hp with hmem | hfr
      · exact hf hd p hmem
      · exact hfr.2.1
    rcases hml : dlookup (cfg.keyOf url) s2.memory_cache with - | ⟨data, ts⟩
    · rw [hml, getMemCase] at hok
      exact hdiskcase s2 hmpost2 hs2idx hok
    · rw [hml, getMemCase] at hok
      cases hexp : isExpired cfg env.now ts with
      | true =>
        rw [hexp, if_pos rfl] at hok
        refine hdiskcase
          { s2 with
            memory_cache := derase (cfg.keyOf url) s2.memory_cache
            access_times := derase (cfg.keyOf url) s2.access_times } ?_ ?_ hok
        · intro p hp
          dsimp only at hp
          exact hmpost2 p ((derase_sublist _ _).mem hp)
        · intro hd p hp
          dsimp only at hp
          exact hs2idx hd p hp
      | false =>
        rw [hexp, if_neg Bool.false_ne_true] at hok
        obtain ⟨-, rfl⟩ := Prod.mk.injEq .. ▸ hok
        exact ⟨hmpost2, hs2idx⟩

/-- Witness for the amended C1 on a concrete dual-tier cache holding one
expired memory entry and one fresh disk entry. -/
theorem C1_ttl_expiry_witness :
    (∀ p ∈ ([] : List (String × (String × Int))), isExpired ⟨300, 2, true, fun u => u⟩ 1000 p.2.2 = false) ∧
    ((⟨300, 2, true, fun u => u⟩ : CacheConfig).disk = true →
      ∀ p ∈ [("fidx", (⟨"u2", 900, 900⟩ : FileEntry))],
        isExpired ⟨300, 2, true, fun u => u⟩ 1000 p.2.timestamp = false) := by
  have h := C1_ttl_expiry ⟨300, 2, true, fun u => u⟩ (Env.clean 1000)
    ⟨[("stale", ("old", 0))], [("stale", 0)], [("fidx", ⟨"u2", 900, 900⟩)], [("fidx", "fdata")]⟩
    "u" none
    ⟨[], [], [("fidx", ⟨"u2", 900, 900⟩)], [("fidx", "fdata")]⟩
    (by decide) rfl
  exact h

/--
C2 counterexample.  The claim says every I/O error on the disk tier is
absorbed so that `get`/`set`/`clear` always complete normally.  But
`_cleanup_files` and `_evict_lru` guard `cache_file.unlink()` with
`except FileNotFoundError` only: an unlink that raises a different
`OSError` (e.g. `PermissionError`) propagates out of `Cache.get` (whose
sweep is unguarded) and out of `Cache.set` (whose eviction is unguarded).
Here the sweep in `get` must delete the expired entry `k1` (age
`1000 - 0 > 300`) and the eviction in `set` must delete `k1` (tier at
`max_size = 2`), and the unlink fault aborts both operations.
-/
theorem C2_counterexample :
    (getOp ⟨300, 2, true, fun u => u⟩ ⟨1000, fun _ => true, fun _ => false, fun _ => false⟩
        ⟨[], [], [("k1", ⟨"u1", 0, 0⟩)], [("k1", "data")]⟩ "u9").1 = .error () ∧
    (setOp ⟨300, 2, true, fun u => u⟩ ⟨1000, fun _ => true, fun _ => false, fun _ => false⟩
        ⟨[], [], [("k1", ⟨"u1", 900, 900⟩), ("k2", ⟨"u2", 950, 950⟩)],
          [("k1", "a"), ("k2", "b")]⟩ "u3" "c").1 = .error () := by
  exact ⟨rfl, rfl⟩

/-- The memory-check stage of `get` and the disk fallback never raise. -/
theorem getMemCase_ok (cfg : CacheConfig) (env : Env) (url : String)
    (s2 : CacheState) (ol : Option (String × Int)) :
    ∃ r s1, getMemCase cfg env url s2 ol = (.ok r, s1) := by
  have hpair : ∀ st : CacheState, ∃ r s1, getDisk cfg env (cfg.keyOf url) st = (.ok r, s1) := by
    intro st
    rcases (getDisk_spec cfg env (cfg.keyOf url) st).1 with ⟨r, hr⟩
    refine ⟨r, (getDisk cfg env (cfg.keyOf url) st).2, ?_⟩
    rw [← hr]
  rcases ol with - | ⟨data, ts⟩
  · rw [getMemCase]
    exact hpair s2
  · rw [getMemCase]
    cases hexp : isExpired cfg env.now ts with
    | true =>
      rw [if_pos rfl]
      exact hpair _
    | false =>
      rw [if_neg Bool.false_ne_true]
      exact ⟨some data, _, rfl⟩

/--
C2 (amended).  All read and write failures on the disk tier's payload
files (and any index-file failure, which the source swallows in
`_load_index`/`_save_index`) are absorbed: with fault-free `unlink`
behaviour — but arbitrary read/write faults — `get` always completes
normally (a read failure is a miss with self-healing), `set` always
completes normally (a write failure leaves the disk tier untouched), and
`clear` completes normally under every fault environment whatsoever.
What the claim missed: deletion (`unlink`) errors other than
file-not-found during the expiry sweep of `get` or the LRU eviction of
`set` propagate to the caller (see the counterexample).
-/
theorem C2_io_errors_absorbed (cfg : CacheConfig) (env : Env) (s : CacheState)
    (url data : String) (hunl : ∀ k, env.unlinkErr k = false) :
    (∃ r s1, getOp cfg env s url = (.ok r, s1)) ∧
    (∃ s2, setOp cfg env s url data = (.ok (), s2)) ∧
    (∀ e2 : Env, ∀ s3 : CacheState, (clearOp cfg e2 s3).1 = .ok ()) := by
  refine ⟨?_, ?_, ?_⟩
  · have hcf : ∃ s2 : CacheState,
        cleanupFiles cfg env (cleanupMemory cfg env s) = (.ok (), s2) := by
      by_cases hd : cfg.disk = true
      · rw [cleanupFiles, if_pos hd, removeFilesLoop_clean _ _ _ hunl]
        exact ⟨_, rfl⟩
      · rw [cleanupFiles, if_neg hd]
        exact ⟨_, rfl⟩
    rcases hcf with ⟨s2, hcf⟩
    rw [getOp, hcf, getAfterSweep]
    exact getMemCase_ok cfg env url s2 _
  · by_cases hdata : data = ""
    · rw [setOp, if_pos hdata]
      exact ⟨s, rfl⟩
    · rcases evictLru_clean_ok cfg env s hunl with ⟨s1, hev⟩
      rw [setOp, if_neg hdata, hev, setAfterEvict]
      by_cases hd : cfg.disk = true
      · rw [if_pos hd]
        by_cases hw : env.writeErr (cfg.keyOf url) = true
        · rw [if_pos hw]
          exact ⟨_, rfl⟩
        · rw [if_neg hw]
          exact ⟨_, rfl⟩
      · rw [if_neg hd]
        exact ⟨_, rfl⟩
  · intro e2 s3
    rw [clearOp]
    by_cases hd : cfg.disk = true
    · rw [if_pos hd]
    · rw [if_neg hd]

/-- Witness for the amended C2 on a concrete disk-backed cache whose every
payload-file read and write faults. -/
theorem C2_io_errors_absorbed_witness :
    (∃ r s1, getOp ⟨300, 2, true, fun u => u⟩
      ⟨1000, fun _ => false, fun _ => true, fun _ => true⟩
      ⟨[], [], [("k1", ⟨"u1", 900, 900⟩)], [("k1", "data")]⟩ "k1" = (.ok r, s1)) ∧
    (∃ s2, setOp ⟨300, 2, true, fun u => u⟩
      ⟨1000, fun _ => false, fun _ => true, fun _ => true⟩
      ⟨[], [], [("k1", ⟨"u1", 900, 900⟩)], [("k1", "data")]⟩ "k1" "payload" = (.ok (), s2)) ∧
    (∀ e2 : Env, ∀ s3 : CacheState,
      (clearOp ⟨300, 2, true, fun u => u⟩ e2 s3).1 = .ok ()) :=
  C2_io_errors_absorbed ⟨300, 2, true, fun u => u⟩
    ⟨1000, fun _ => false, fun _ => true, fun _ => true⟩
    ⟨[], [], [("k1", ⟨"u1", 900, 900⟩)], [("k1", "data")]⟩ "k1" "payload"
    (fun k => rfl)

/-! ## C10: frame conditions of `get` -/

/-- Frame relation between the state before and after (a stage of) a
`Cache.get` call for `url`: no entry is ever added to the memory tier, to
the payload files, or to the disk index (so in particular a disk hit is not
promoted into memory); a surviving index entry keeps its `url` and
`timestamp` and its `access_time` is either untouched or refreshed to the
current time on the hit key only; and `access_times` of every non-hit key
is untouched or removed. -/
def GetFrame (cfg : CacheConfig) (env : Env) (url : String) (s s1 : CacheState) : Prop :=
  (∀ p ∈ s1.memory_cache, p ∈ s.memory_cache) ∧
  (∀ p ∈ s1.files, p ∈ s.files) ∧
  (∀ k e1, dlookup k s1.file_index = some e1 →
    ∃ e, dlookup k s.file_index = some e ∧ e1.url = e.url ∧ e1.timestamp = e.timestamp ∧
      (e1.access_time = e.access_time ∨ (k = cfg.keyOf url ∧ e1.access_time = env.now))) ∧
  (∀ k, k ≠ cfg.keyOf url →
    dlookup k s1.access_times = dlookup k s.access_times ∨ dlookup k s1.access_times = none)

theorem GetFrame_refl (cfg : CacheConfig) (env : Env) (url : String) (s : CacheState) :
    GetFrame cfg env url s s :=
  ⟨fun _ hp => hp, fun _ hp => hp,
   fun _ e1 hl => ⟨e1, hl, rfl, rfl, Or.inl rfl⟩,
   fun _ _ => Or.inl rfl⟩

theorem GetFrame_trans {cfg : CacheConfig} {env : Env} {url : String}
    {s t u : CacheState} (h1 : GetFrame cfg env url s t) (h2 : GetFrame cfg env url t u) :
    GetFrame cfg env url s u := by
  obtain ⟨m1, f1, i1, a1⟩ := h1
  obtain ⟨m2, f2, i2, a2⟩ := h2
  refine ⟨fun p hp => m1 p (m2 p hp), fun p hp => f1 p (f2 p hp), ?_, ?_⟩
  · intro k e1 hl
    rcases i2 k e1 hl with ⟨e, hle, hu1, ht1, hacc1⟩
    rcases i1 k e hle with ⟨e0, hle0, hu0, ht0, hacc0⟩
    refine ⟨e0, hle0, hu1.trans hu0, ht1.trans ht0, ?_⟩
    rcases hacc1 with hacc1 | hhit
    · rcases hacc0 with hacc0 | hhit0
      · exact Or.inl (hacc1.trans hacc0)
      · exact Or.inr ⟨hhit0.1, hacc1.trans hhit0.2⟩
    · exact Or.inr hhit
  · intro k hk
    rcases a2 k hk with h2a | h2a
    · rcases a1 k hk with h1a | h1a
      · exact Or.inl (h2a.trans h1a)
      · exact Or.inr (h2a.trans h1a)
    · exact Or.inr h2a

theorem dlookup_foldl_derase_or {α : Type} {ks : List String}
    {l : List (String × α)} (k : String) (hnd : (dkeys l).Nodup) :
    dlookup k (ks.foldl (fun m k1 => derase k1 m) l) = dlookup k l ∨
    dlookup k (ks.foldl (fun m k1 => derase k1 m) l) = none := by
  by_cases hk : k ∈ ks
  · exact Or.inr ((dlookup_eq_none _ _).mpr (not_mem_dkeys_foldl_derase hnd hk))
  · exact Or.inl (dlookup_foldl_derase_notmem hk)

/-- The memory sweep at the top of `get` satisfies the frame relation. -/
theorem cleanupMemory_frame (cfg : CacheConfig) (env : Env) (url : String)
    (s : CacheState) (hWF : s.WF) :
    GetFrame cfg env url s (cleanupMemory cfg env s) := by
  refine ⟨?_, fun p hp => hp, fun k e1 hl => ⟨e1, hl, rfl, rfl, Or.inl rfl⟩, ?_⟩
  · intro p hp
    have hmc : (cleanupMemory cfg env s).memory_cache =
        ((s.memory_cache.filter fun p => isExpired cfg env.now p.2.2).map (·.1)).foldl
          (fun m k => derase k m) s.memory_cache := rfl
    rw [hmc] at hp
    exact (foldl_derase_sublist _ _).mem hp
  · intro k hk
    have hac : (cleanupMemory cfg env s).access_times =
        ((s.memory_cache.filter fun p => isExpired cfg env.now p.2.2).map (·.1)).foldl
          (fun m k => derase k m) s.access_times := rfl
    rw [hac]
    exact dlookup_foldl_derase_or k hWF.2.1

/-- The disk sweep of `get` satisfies the frame relation whatever its
outcome (success or a propagating unlink fault). -/
theorem cleanupFiles_frame (cfg : CacheConfig) (env : Env) (url : String)
    (t : CacheState) (hnd : (dkeys t.file_index).Nodup)
    (ec : Except Unit Unit) (s2 : CacheState)
    (hcf : cleanupFiles cfg env t = (ec, s2)) :
    GetFrame cfg env url t s2 := by
  by_cases hd : cfg.disk = true
  · rw [cleanupFiles, if_pos hd] at hcf
    rcases removeFilesLoop_spec env
        ((List.filter (fun p => isExpired cfg env.now p.2.timestamp) t.file_index).map (·.1))
        t with ⟨ks1, ks2, hks, hstate, hokk, herr⟩
    rw [hcf] at hstate
    simp only at hstate
    rw [hstate]
    refine ⟨fun p hp => hp, ?_, ?_, fun k hk => Or.inl rfl⟩
    · intro p hp
      dsimp only at hp
      exact (foldl_derase_sublist _ _).mem hp
    · intro k e1 hl
      dsimp only at hl
      rcases @dlookup_foldl_derase_or _ ks1 _ k hnd with hor | hor
      · rw [hor] at hl
        exact ⟨e1, hl, rfl, rfl, Or.inl rfl⟩
      · rw [hor] at hl
        exact Option.noConfusion hl
  · rw [cleanupFiles, if_neg hd] at hcf
    obtain ⟨-, rfl⟩ := Prod.mk.injEq .. ▸ hcf
    exact GetFrame_refl cfg env url t

/-- The disk half of `get` satisfies the frame relation. -/
theorem getDisk_frame (cfg : CacheConfig) (env : Env) (url : String)
    (st : CacheState) (hnd : (dkeys st.file_index).Nodup)
    (r2 : Except Unit (Option String)) (s1 : CacheState)
    (hgd : getDisk cfg env (cfg.keyOf url) st = (r2, s1)) :
    GetFrame cfg env url st s1 := by
  have hspec := getDisk_spec cfg env (cfg.keyOf url) st
  have hs1 : (getDisk cfg env (cfg.keyOf url) st).2 = s1 := by rw [hgd]
  rw [hs1] at hspec
  obtain ⟨-, hmem, hacc, hfiles, hidx⟩ := hspec
  refine ⟨fun p hp => by rw [← hmem]; exact hp,
          fun p hp => by rw [← hfiles]; exact hp, ?_,
          fun k hk => Or.inl (by rw [hacc])⟩
  intro k e1 hl
  rcases hidx (k, e1) (mem_of_dlookup hl) with hmem2 | hhit
  · exact ⟨e1, dlookup_of_mem_nodup hnd hmem2, rfl, rfl, Or.inl rfl⟩
  · obtain ⟨hk, hfr, hacc1, e, hle, hurl, hts⟩ := hhit
    refine ⟨e, ?_, hurl, hts, Or.inr ⟨hk, hacc1⟩⟩
    rw [show k = cfg.keyOf url from hk]
    exact hle

/--
C10.  A `Cache.get` call never adds an entry to either tier: every
memory-tier entry of the post-state (key and value alike) was already in
the pre-state — so a disk hit is not promoted (copied) into the memory
tier — no payload file is created, no disk-index entry is created, a
surviving index entry keeps its `url` and `timestamp` with at most its
`access_time` refreshed to the current time on the hit key, and the
`last_access` of every key other than the hit key is either untouched or
removed (by the expiry sweep).  This holds whether `get` returns normally
or propagates an unlink fault.
-/
theorem C10_get_no_promotion (cfg : CacheConfig) (env : Env) (s : CacheState)
    (url : String) (res : Except Unit (Option String)) (s1 : CacheState)
    (hWF : s.WF) (hrun : getOp cfg env s url = (res, s1)) :
    GetFrame cfg env url s s1 := by
  have hndidx : (dkeys (cleanupMemory cfg env s).file_index).Nodup := hWF.2.2.1
  rcases hcfr : cleanupFiles cfg env (cleanupMemory cfg env s) with ⟨ec, s2⟩
  rw [getOp, hcfr] at hrun
  have hF2 : GetFrame cfg env url s s2 :=
    GetFrame_trans (cleanupMemory_frame cfg env url s hWF)
      (cleanupFiles_frame cfg env url _ hndidx ec s2 hcfr)
  have hnd2 : (dkeys s2.file_index).Nodup := by
    rcases removeFilesLoop_spec env
        ((List.filter (fun p => isExpired cfg env.now p.2.timestamp)
          (cleanupMemory cfg env s).file_index).map (·.1))
        (cleanupMemory cfg env s) with ⟨ks1, ks2, hks, hstate, hokk, herr⟩
    by_cases hd : cfg.disk = true
    · rw [cleanupFiles, if_pos hd] at hcfr
      rw [hcfr] at hstate
      simp only at hstate
      rw [hstate]
      exact nodup_foldl_derase hndidx
    · rw [cleanupFiles, if_neg hd] at hcfr
      obtain ⟨-, rfl⟩ := Prod.mk.injEq .. ▸ hcfr
      exact hndidx
  cases ec with
  | error u =>
    rw [getAfterSweep] at hrun
    obtain ⟨-, rfl⟩ := Prod.mk.injEq .. ▸ hrun
    exact hF2
  | ok u =>
    rw [getAfterSweep] at hrun
    rcases hml : dlookup (cfg.keyOf url) s2.memory_cache with - | ⟨data, ts⟩
    · rw [hml, getMemCase] at hrun
      exact GetFrame_trans hF2 (getDisk_frame cfg env url s2 hnd2 res s1 hrun)
    · rw [hml, getMemCase] at hrun
      cases hexp : isExpired cfg env.now ts with
      | true =>
        rw [hexp, if_pos rfl] at hrun
        refine GetFrame_trans hF2 (GetFrame_trans ?_
          (getDisk_frame cfg env url
            { s2 with
              memory_cache := derase (cfg.keyOf url) s2.memory_cache
              access_times := derase (cfg.keyOf url) s2.access_times }
            hnd2 res s1 hrun))
        refine ⟨?_, fun p hp => hp, fun k e1 hl => ⟨e1, hl, rfl, rfl, Or.inl rfl⟩, ?_⟩
        · intro p hp
          dsimp only at hp
          exact (derase_sublist _ _).mem hp
        · intro k hk
          dsimp only
          exact Or.inl (dlookup_derase_ne _ hk)
      | false =>
        rw [hexp, if_neg Bool.false_ne_true] at hrun
        obtain ⟨-, rfl⟩ := Prod.mk.injEq .. ▸ hrun
        refine GetFrame_trans hF2
          ⟨fun p hp => hp, fun p hp => hp,
           fun k e1 hl => ⟨e1, hl, rfl, rfl, Or.inl rfl⟩, ?_⟩
        intro k hk
        dsimp only
        exact Or.inl (dlookup_dinsert_ne _ _ hk)

/-- Witness for C10: a `get` that hits the disk tier on a dual-tier cache
holding an unrelated memory entry. -/
theorem C10_get_no_promotion_witness :
    GetFrame ⟨300, 4, true, fun u => u⟩ (Env.clean 1000) "k1"
      ⟨[("m1", ("mdata", 990))], [("m1", 990)], [("k1", ⟨"k1", 900, 900⟩)], [("k1", "data")]⟩
      ⟨[("m1", ("mdata", 990))], [("m1", 990)], [("k1", ⟨"k1", 900, 1000⟩)], [("k1", "data")]⟩ :=
  C10_get_no_promotion ⟨300, 4, true, fun u => u⟩ (Env.clean 1000)
    ⟨[("m1", ("mdata", 990))], [("m1", 990)], [("k1", ⟨"k1", 900, 900⟩)], [("k1", "data")]⟩
    "k1" (.ok (some "data"))
    ⟨[("m1", ("mdata", 990))], [("m1", 990)], [("k1", ⟨"k1", 900, 1000⟩)], [("k1", "data")]⟩
    (by decide) rfl

/-! ## C3: LRU bound and eviction order -/

theorem dkeys_length {α : Type} (l : List (String × α)) :
    (dkeys l).length = l.length :=
  List.length_map _ _

/-- Two dicts with unique keys and the same key membership have the same
number of entries. -/
theorem length_eq_of_keysMatch {α β : Type} {l1 : List (String × α)}
    {l2 : List (String × β)} (h1 : (dkeys l1).Nodup) (h2 : (dkeys l2).Nodup)
    (hm : ∀ k, k ∈ dkeys l1 ↔ k ∈ dkeys l2) : l1.length = l2.length := by
  have hc1 := List.toFinset_card_of_nodup h1
  have hc2 := List.toFinset_card_of_nodup h2
  have hfin : (dkeys l1).toFinset = (dkeys l2).toFinset := by
    ext k
    simp only [List.mem_toFinset]
    exact hm k
  rw [← dkeys_length l1, ← dkeys_length l2, ← hc1, ← hc2, hfin]

/-- The keys of the first `n` elements of a key-sorted dict are distinct. -/
theorem take_sortBy_keys_nodup {α : Type} (f : String × α → Int)
    (l : List (String × α)) (n : Nat) (hnd : (dkeys l).Nodup) :
    (((sortBy f l).take n).map (·.1)).Nodup := by
  have hperm : ((sortBy f l).map (·.1)).Perm (dkeys l) :=
    (sortBy_perm f l).map _
  have hnd2 : ((sortBy f l).map (·.1)).Nodup := hperm.nodup_iff.mpr hnd
  rw [List.map_take]
  exact hnd2.sublist (List.take_sublist n _)

theorem take_sortBy_keys_subset {α : Type} (f : String × α → Int)
    (l : List (String × α)) (n : Nat) :
    ∀ k ∈ ((sortBy f l).take n).map (·.1), k ∈ dkeys l := by
  intro k hk
  rcases List.mem_map.mp hk with ⟨p, hp, rfl⟩
  exact List.mem_map_of_mem _ ((mem_sortBy f l p).mp (List.take_subset n _ hp))

theorem length_take_sortBy {α : Type} (f : String × α → Int)
    (l : List (String × α)) (n : Nat) (h : n ≤ l.length) :
    ((((sortBy f l).take n)).map (·.1)).length = n := by
  rw [List.length_map, List.length_take, sortBy_length]
  omega

theorem evictMemory_file_index (cfg : CacheConfig) (s : CacheState) :
    (evictMemory cfg s).file_index = s.file_index ∧
    (evictMemory cfg s).files = s.files := by
  unfold evictMemory
  split
  · exact ⟨rfl, rfl⟩
  · exact ⟨rfl, rfl⟩

/-- When the memory tier is at or over `max_size`, eviction brings both
memory dicts to exactly `max_size - 1` entries. -/
theorem evictMemory_lengths (cfg : CacheConfig) (s : CacheState)
    (hndm : (dkeys s.memory_cache).Nodup) (hnda : (dkeys s.access_times).Nodup)
    (hmatch : ∀ k, k ∈ dkeys s.memory_cache ↔ k ∈ dkeys s.access_times)
    (hmax : 1 ≤ cfg.max_size) (htrig : cfg.max_size ≤ s.memory_cache.length) :
    (evictMemory cfg s).memory_cache.length = cfg.max_size - 1 ∧
    (evictMemory cfg s).access_times.length = cfg.max_size - 1 := by
  have hlen : s.access_times.length = s.memory_cache.length :=
    length_eq_of_keysMatch hnda hndm (fun k => (hmatch k).symm)
  have hnle : s.memory_cache.length - cfg.max_size + 1 ≤ s.access_times.length := by
    omega
  have hdoom_nd := take_sortBy_keys_nodup (fun p => p.2) s.access_times
    (s.memory_cache.length - cfg.max_size + 1) hnda
  have hdoom_sub := take_sortBy_keys_subset (fun p => p.2) s.access_times
    (s.memory_cache.length - cfg.max_size + 1)
  have hdoom_len := length_take_sortBy (fun p => p.2) s.access_times
    (s.memory_cache.length - cfg.max_size + 1) hnle
  rw [evictMemory, if_pos htrig]
  constructor
  · dsimp only
    rw [length_foldl_derase hdoom_nd
      (fun k hk => (hmatch k).mpr (hdoom_sub k hk)) hndm, hdoom_len]
    omega
  · dsimp only
    rw [length_foldl_derase hdoom_nd hdoom_sub hnda, hdoom_len, hlen]
    omega

theorem evictMemory_untrig (cfg : CacheConfig) (s : CacheState)
    (h : ¬ cfg.max_size ≤ s.memory_cache.length) : evictMemory cfg s = s := by
  rw [evictMemory, if_neg h]

/-- After the memory half of eviction there is room for the new entry. -/
theorem evictMemory_room (cfg : CacheConfig) (s : CacheState)
    (hndm : (dkeys s.memory_cache).Nodup) (hnda : (dkeys s.access_times).Nodup)
    (hmatch : ∀ k, k ∈ dkeys s.memory_cache ↔ k ∈ dkeys s.access_times)
    (hmax : 1 ≤ cfg.max_size) (hle : s.memory_cache.length ≤ cfg.max_size) :
    (evictMemory cfg s).memory_cache.length + 1 ≤ cfg.max_size := by
  by_cases htrig : cfg.max_size ≤ s.memory_cache.length
  · rw [(evictMemory_lengths cfg s hndm hnda hmatch hmax htrig).1]
    omega
  · rw [evictMemory_untrig cfg s htrig]
    omega

/-- The memory half of eviction preserves key uniqueness and the key
correspondence of the two memory dicts. -/
theorem evictMemory_wf (cfg : CacheConfig) (s : CacheState)
    (hndm : (dkeys s.memory_cache).Nodup) (hnda : (dkeys s.access_times).Nodup)
    (hmatch : ∀ k, k ∈ dkeys s.memory_cache ↔ k ∈ dkeys s.access_times) :
    (dkeys (evictMemory cfg s).memory_cache).Nodup ∧
    (dkeys (evictMemory cfg s).access_times).Nodup ∧
    (∀ k, k ∈ dkeys (evictMemory cfg s).memory_cache ↔
      k ∈ dkeys (evictMemory cfg s).access_times) := by
  unfold evictMemory
  split
  · refine ⟨nodup_foldl_derase hndm, nodup_foldl_derase hnda, ?_⟩
    intro k
    by_cases hk : k ∈ (((sortBy (fun p => p.2) s.access_times).take
        (s.memory_cache.length - cfg.max_size + 1)).map (·.1))
    · exact iff_of_false (not_mem_dkeys_foldl_derase hndm hk)
        (not_mem_dkeys_foldl_derase hnda hk)
    · rw [mem_dkeys_foldl_derase_notmem hk, mem_dkeys_foldl_derase_notmem hk]
      exact hmatch k
  · exact ⟨hndm, hnda, hmatch⟩

/-- The file half of eviction only removes index entries and files. -/
theorem evictFiles_sub (cfg : CacheConfig) (env : Env) (s1 : CacheState) :
    List.Sublist (evictFiles cfg env s1).2.file_index s1.file_index ∧
    List.Sublist (evictFiles cfg env s1).2.files s1.files := by
  unfold evictFiles
  split
  · rcases removeFilesLoop_spec env
        (((sortBy (fun p => p.2.access_time) s1.file_index).take
          (s1.file_index.length - cfg.max_size + 1)).map (·.1)) s1
      with ⟨ks1, ks2, hks, hstate, hokk, herr⟩
    rw [hstate]
    exact ⟨foldl_derase_sublist _ _, foldl_derase_sublist _ _⟩
  · exact ⟨List.Sublist.refl _, List.Sublist.refl _⟩

/-- When the disk tier is at or over `max_size` and the eviction loop
completes, the index is brought to exactly `max_size - 1` entries. -/
theorem evictFiles_ok_length (cfg : CacheConfig) (env : Env) (s1 s2 : CacheState)
    (hnd : (dkeys s1.file_index).Nodup) (hmax : 1 ≤ cfg.max_size)
    (hd : cfg.disk = true) (htrig : cfg.max_size ≤ s1.file_index.length)
    (hok : evictFiles cfg env s1 = (.ok (), s2)) :
    s2.file_index.length = cfg.max_size - 1 := by
  rw [evictFiles, if_pos ⟨hd, htrig⟩] at hok
  rcases removeFilesLoop_spec env
      (((sortBy (fun p => p.2.access_time) s1.file_index).take
        (s1.file_index.length - cfg.max_size + 1)).map (·.1)) s1
    with ⟨ks1, ks2, hks, hstate, hokk, herr⟩
  rw [hok] at hstate hokk
  simp only at hstate hokk
  have hks2 : ks2 = [] := hokk.mp trivial
  subst hks2
  rw [List.append_nil] at hks
  subst hks
  have hnle : s1.file_index.length - cfg.max_size + 1 ≤ s1.file_index.length := by
    omega
  rw [hstate]
  dsimp only
  rw [length_foldl_derase (take_sortBy_keys_nodup _ _ _ hnd)
    (take_sortBy_keys_subset _ _ _) hnd,
    length_take_sortBy (fun p => p.2.access_time) s1.file_index _ hnle]
  omega

/-- After a completed file-half eviction on a disk-backed cache whose
index respects the bound, there is room for the new index entry. -/
theorem evictFiles_ok_room (cfg : CacheConfig) (env : Env) (s1 s2 : CacheState)
    (hnd : (dkeys s1.file_index).Nodup) (hmax : 1 ≤ cfg.max_size)
    (hd : cfg.disk = true) (hle : s1.file_index.length ≤ cfg.max_size)
    (hok : evictFiles cfg env s1 = (.ok (), s2)) :
    s2.file_index.length + 1 ≤ cfg.max_size := by
  by_cases htrig : cfg.max_size ≤ s1.file_index.length
  · rw [evictFiles_ok_length cfg env s1 s2 hnd hmax hd htrig hok]
    omega
  · have hcond : ¬(cfg.disk = true ∧ s1.file_index.length ≥ cfg.max_size) :=
      fun hc => htrig hc.2
    rw [evictFiles, if_neg hcond] at hok
    obtain ⟨-, rfl⟩ := Prod.mk.injEq .. ▸ hok
    omega

/-- Invariant maintained by `set` sequences: key uniqueness everywhere,
coincidence of the two memory-tier key sets, and both tiers within the
bound.  Every state of a live `Cache` with `max_size ≥ 1` reachable by
`set` calls from a fresh cache satisfies it. -/
def SetsInv (cfg : CacheConfig) (s : CacheState) : Prop :=
  s.WF ∧
  (∀ k, k ∈ dkeys s.memory_cache ↔ k ∈ dkeys s.access_times) ∧
  s.memory_cache.length ≤ cfg.max_size ∧
  s.file_index.length ≤ cfg.max_size

theorem SetsInv_empty (cfg : CacheConfig) : SetsInv cfg CacheState.empty := by
  refine ⟨⟨?_, ?_, ?_, ?_⟩, fun k => Iff.rfl, ?_, ?_⟩ <;>
    simp [CacheState.empty]

/-- One `set` call preserves the invariant, whether it completes or
propagates an eviction unlink fault. -/
theorem setOp_preserves_inv (cfg : CacheConfig) (env : Env) (s : CacheState)
    (url data : String) (hmax : 1 ≤ cfg.max_size) (hInv : SetsInv cfg s) :
    SetsInv cfg (setOp cfg env s url data).2 := by
  obtain ⟨⟨hndm, hnda, hndi, hndf⟩, hmatch, hmlen, hilen⟩ := hInv
  by_cases hdata : data = ""
  · rw [setOp, if_pos hdata]
    exact ⟨⟨hndm, hnda, hndi, hndf⟩, hmatch, hmlen, hilen⟩
  · rw [setOp, if_neg hdata, evictLru]
    obtain ⟨hndm1, hnda1, hmatch1⟩ := evictMemory_wf cfg s hndm hnda hmatch
    have hroom := evictMemory_room cfg s hndm hnda hmatch hmax hmlen
    obtain ⟨hfi1, hfl1⟩ := evictMemory_file_index cfg s
    rcases hef : evictFiles cfg env (evictMemory cfg s) with ⟨ec, s1⟩
    obtain ⟨hidx_sub, hfls_sub⟩ := evictFiles_sub cfg env (evictMemory cfg s)
    rw [hef] at hidx_sub hfls_sub
    obtain ⟨hm1, ha1⟩ := evictFiles_memory cfg env (evictMemory cfg s)
    rw [hef] at hm1 ha1
    simp only at hidx_sub hfls_sub hm1 ha1
    have hndi1 : (dkeys s1.file_index).Nodup := by
      have hsub : List.Sublist (dkeys s1.file_index) (dkeys (evictMemory cfg s).file_index) :=
        List.Sublist.map _ hidx_sub
      exact hsub.nodup (hfi1 ▸ hndi)
    have hndf1 : (dkeys s1.files).Nodup := by
      have hsub : List.Sublist (dkeys s1.files) (dkeys (evictMemory cfg s).files) :=
        List.Sublist.map _ hfls_sub
      exact hsub.nodup (hfl1 ▸ hndf)
    have hilen1 : s1.file_index.length ≤ cfg.max_size := by
      have := hidx_sub.length_le
      rw [hfi1] at this
      omega
    cases ec with
    | error u =>
      rw [setAfterEvict]
      refine ⟨⟨?_, ?_, hndi1, hndf1⟩, ?_, ?_, hilen1⟩
      · rw [hm1]; exact hndm1
      · rw [ha1]; exact hnda1
      · intro k; rw [hm1, ha1]; exact hmatch1 k
      · rw [hm1]
        have := (evictMemory_sub cfg s).1.length_le
        omega
    | ok u =>
      rw [setAfterEvict]
      have hbase :
          (dkeys (dinsert (cfg.keyOf url) (data, env.now) s1.memory_cache)).Nodup ∧
          (dkeys (dinsert (cfg.keyOf url) env.now s1.access_times)).Nodup ∧
          (∀ k, k ∈ dkeys (dinsert (cfg.keyOf url) (data, env.now) s1.memory_cache) ↔
            k ∈ dkeys (dinsert (cfg.keyOf url) env.now s1.access_times)) ∧
          (dinsert (cfg.keyOf url) (data, env.now) s1.memory_cache).length ≤
            cfg.max_size := by
        refine ⟨?_, ?_, ?_, ?_⟩
        · exact nodup_dinsert (hm1 ▸ hndm1)
        · exact nodup_dinsert (ha1 ▸ hnda1)
        · intro k
          rw [mem_dkeys_dinsert, mem_dkeys_dinsert, hm1, ha1]
          have h := hmatch1 k
          constructor
          · rintro (rfl | hk)
            · exact Or.inl rfl
            · exact Or.inr (h.mp hk)
          · rintro (rfl | hk)
            · exact Or.inl rfl
            · exact Or.inr (h.mpr hk)
        · have h1 := length_dinsert_le (cfg.keyOf url) (data, env.now) s1.memory_cache
          rw [hm1] at h1
          rw [hm1]
          omega
      obtain ⟨hb1, hb2, hb3, hb4⟩ := hbase
      by_cases hd : cfg.disk = true
      · rw [if_pos hd]
        by_cases hw : env.writeErr (cfg.keyOf url) = true
        · rw [if_pos hw]
          exact ⟨⟨hb1, hb2, hndi1, hndf1⟩, hb3, hb4, hilen1⟩
        · rw [if_neg hw]
          dsimp only
          refine ⟨⟨hb1, hb2, nodup_dinsert hndi1, nodup_dinsert hndf1⟩, hb3, hb4, ?_⟩
          have hroomi : s1.file_index.length + 1 ≤ cfg.max_size := by
            refine evictFiles_ok_room cfg env (evictMemory cfg s) s1 (hfi1 ▸ hndi) hmax hd ?_ ?_
            · rw [hfi1]; exact hilen
            · rw [hef]
          have hlast := length_dinsert_le (cfg.keyOf url)
            (⟨url, env.now, env.now⟩ : FileEntry) s1.file_index
          show (dinsert (cfg.keyOf url)
            (⟨url, env.now, env.now⟩ : FileEntry) s1.file_index).length ≤ cfg.max_size
          omega
      · rw [if_neg hd]
        exact ⟨⟨hb1, hb2, hndi1, hndf1⟩, hb3, hb4, hilen1⟩

/-- Iterated `set` calls, the shape quantified over by the LRU bound. -/
def runSets (cfg : CacheConfig) : List (Env × String × String) → CacheState → CacheState
  | [], s => s
  | (env, url, data) :: ops, s => runSets cfg ops (setOp cfg env s url data).2

theorem runSets_inv (cfg : CacheConfig) (hmax : 1 ≤ cfg.max_size)
    (ops : List (Env × String × String)) (s : CacheState) (hInv : SetsInv cfg s) :
    SetsInv cfg (runSets cfg ops s) := by
  induction ops generalizing s with
  | nil => exact hInv
  | cons op ops ih =>
    obtain ⟨env, url, data⟩ := op
    exact ih _ (setOp_preserves_inv cfg env s url data hmax hInv)

/-- Oldest-first order of memory-tier eviction: whenever one key is evicted
and another survives, the evicted one had the older (or equal)
`last_access`. -/
theorem evictMemory_order (cfg : CacheConfig) (s : CacheState)
    (hndm : (dkeys s.memory_cache).Nodup) (hnda : (dkeys s.access_times).Nodup)
    (k1 k2 : String) (t1 t2 : Int)
    (h1 : k1 ∈ dkeys s.memory_cache)
    (hrem : k1 ∉ dkeys (evictMemory cfg s).memory_cache)
    (hkept : k2 ∈ dkeys (evictMemory cfg s).memory_cache)
    (hl1 : dlookup k1 s.access_times = some t1)
    (hl2 : dlookup k2 s.access_times = some t2) :
    t1 ≤ t2 := by
  by_cases htrig : cfg.max_size ≤ s.memory_cache.length
  case neg =>
    rw [evictMemory_untrig cfg s htrig] at hrem
    exact absurd h1 hrem
  case pos =>
  rw [evictMemory, if_pos htrig] at hrem hkept
  dsimp only at hrem hkept
  have hk1d : k1 ∈ ((sortBy (fun p => p.2) s.access_times).take
      (s.memory_cache.length - cfg.max_size + 1)).map (·.1) := by
    by_contra hk
    exact hrem ((mem_dkeys_foldl_derase_notmem hk).mpr h1)
  have hk2d : k2 ∉ ((sortBy (fun p => p.2) s.access_times).take
      (s.memory_cache.length - cfg.max_size + 1)).map (·.1) :=
    fun hk => (not_mem_dkeys_foldl_derase hndm hk) hkept
  rcases List.mem_map.mp hk1d with ⟨p1, hp1take, hp1k⟩
  have hp1acc : p1 ∈ s.access_times :=
    (mem_sortBy _ _ _).mp (List.take_subset _ _ hp1take)
  have hp1look : dlookup p1.1 s.access_times = some p1.2 :=
    dlookup_of_mem_nodup hnda hp1acc
  rw [hp1k, hl1] at hp1look
  have ht1 : p1.2 = t1 := (Option.some.inj hp1look).symm
  have hm2s : (k2, t2) ∈ sortBy (fun p => p.2) s.access_times :=
    (mem_sortBy _ _ _).mpr (mem_of_dlookup hl2)
  rw [← List.take_append_drop (s.memory_cache.length - cfg.max_size + 1)
    (sortBy (fun p => p.2) s.access_times)] at hm2s
  rcases List.mem_append.mp hm2s with hin | hin
  · exact absurd (List.mem_map_of_mem (·.1) hin) hk2d
  · have hle : p1.2 ≤ t2 :=
      sortBy_take_le_drop (fun p => p.2) s.access_times _ p1 (k2, t2) hp1take hin
    exact ht1 ▸ hle

/-- Oldest-first order of disk-tier eviction, robust to the loop aborting
midway on an unlink fault (only a prefix of the sorted victim list has
been processed, and a sorted prefix still respects the order). -/
theorem evictFiles_order (cfg : CacheConfig) (env : Env) (s1 : CacheState)
    (hndi : (dkeys s1.file_index).Nodup)
    (k1 k2 : String) (e1 e2 : FileEntry)
    (h1 : k1 ∈ dkeys s1.file_index)
    (hrem : k1 ∉ dkeys (evictFiles cfg env s1).2.file_index)
    (hkept : k2 ∈ dkeys (evictFiles cfg env s1).2.file_index)
    (hl1 : dlookup k1 s1.file_index = some e1)
    (hl2 : dlookup k2 s1.file_index = some e2) :
    e1.access_time ≤ e2.access_time := by
  by_cases hc : cfg.disk = true ∧ s1.file_index.length ≥ cfg.max_size
  case neg =>
    rw [evictFiles, if_neg hc] at hrem
    exact absurd h1 hrem
  case pos =>
  rw [evictFiles, if_pos hc] at hrem hkept
  rcases removeFilesLoop_spec env
      (((sortBy (fun p => p.2.access_time) s1.file_index).take
        (s1.file_index.length - cfg.max_size + 1)).map (·.1)) s1
    with ⟨ks1, ks2, hks, hstate, -, -⟩
  rw [hstate] at hrem hkept
  dsimp only at hrem hkept
  have hk1in : k1 ∈ ks1 := by
    by_contra hk
    exact hrem ((mem_dkeys_foldl_derase_notmem hk).mpr h1)
  have hk2nin : k2 ∉ ks1 := fun hk => (not_mem_dkeys_foldl_derase hndi hk) hkept
  have hks1eq : ks1 = ((sortBy (fun p => p.2.access_time) s1.file_index).take
      (min ks1.length (s1.file_index.length - cfg.max_size + 1))).map (·.1) := by
    have h := congrArg (List.take ks1.length) hks
    rw [List.take_left] at h
    have h2 : List.take ks1.length
        (((sortBy (fun p => p.2.access_time) s1.file_index).take
          (s1.file_index.length - cfg.max_size + 1)).map (·.1)) =
        ((sortBy (fun p => p.2.access_time) s1.file_index).take
          (min ks1.length (s1.file_index.length - cfg.max_size + 1))).map (·.1) := by
      rw [← List.map_take, List.take_take]
    exact h.symm.trans h2
  rw [hks1eq] at hk1in hk2nin
  rcases List.mem_map.mp hk1in with ⟨p1, hp1take, hp1k⟩
  have hp1idx : p1 ∈ s1.file_index :=
    (mem_sortBy _ _ _).mp (List.take_subset _ _ hp1take)
  have hp1look : dlookup p1.1 s1.file_index = some p1.2 :=
    dlookup_of_mem_nodup hndi hp1idx
  rw [hp1k, hl1] at hp1look
  have he1 : p1.2 = e1 := (Option.some.inj hp1look).symm
  have hm2s : (k2, e2) ∈ sortBy (fun p => p.2.access_time) s1.file_index :=
    (mem_sortBy _ _ _).mpr (mem_of_dlookup hl2)
  rw [← List.take_append_drop (min ks1.length (s1.file_index.length - cfg.max_size + 1))
    (sortBy (fun p => p.2.access_time) s1.file_index)] at hm2s
  rcases List.mem_append.mp hm2s with hin | hin
  · exact absurd (List.mem_map_of_mem (·.1) hin) hk2nin
  · have hle : p1.2.access_time ≤ e2.access_time :=
      sortBy_take_le_drop (fun p => p.2.access_time) s1.file_index _ p1 (k2, e2) hp1take hin
    exact he1 ▸ hle

/--
C3.  LRU bound and eviction order, for a cache with `max_size ≥ 1`:
(i) after any sequence of `set` calls from a fresh cache — under arbitrary
fault environments and payloads — each tier's entry count never exceeds
`max_size`;
(ii) when the memory tier is at or over `max_size`, the eviction run by
`set` brings it to exactly `max_size - 1` entries before the new entry is
inserted;
(iii) likewise for the disk tier when the eviction loop completes;
(iv) memory-tier eviction removes entries ranked by `last_access`
ascending: of any evicted/retained pair, the evicted key's `last_access`
is not newer than the retained key's;
(v) the same for the disk tier (by the index `access_time`), even when
the eviction loop aborts midway on an unlink fault.
-/
theorem C3_lru_bound (cfg : CacheConfig) (hmax : 1 ≤ cfg.max_size) :
    (∀ ops : List (Env × String × String),
      (runSets cfg ops CacheState.empty).memory_cache.length ≤ cfg.max_size ∧
      (runSets cfg ops CacheState.empty).file_index.length ≤ cfg.max_size) ∧
    (∀ s : CacheState, SetsInv cfg s → cfg.max_size ≤ s.memory_cache.length →
      (evictMemory cfg s).memory_cache.length = cfg.max_size - 1) ∧
    (∀ env s s1, SetsInv cfg s → cfg.disk = true →
      cfg.max_size ≤ s.file_index.length → evictLru cfg env s = (.ok (), s1) →
      s1.file_index.length = cfg.max_size - 1) ∧
    (∀ env s k1 k2 t1 t2, SetsInv cfg s →
      k1 ∈ dkeys s.memory_cache →
      k1 ∉ dkeys (evictLru cfg env s).2.memory_cache →
      k2 ∈ dkeys (evictLru cfg env s).2.memory_cache →
      dlookup k1 s.access_times = some t1 → dlookup k2 s.access_times = some t2 →
      t1 ≤ t2) ∧
    (∀ env s k1 k2 e1 e2, SetsInv cfg s →
      k1 ∈ dkeys s.file_index →
      k1 ∉ dkeys (evictLru cfg env s).2.file_index →
      k2 ∈ dkeys (evictLru cfg env s).2.file_index →
      dlookup k1 s.file_index = some e1 → dlookup k2 s.file_index = some e2 →
      e1.access_time ≤ e2.access_time) := by
  refine ⟨?_, ?_, ?_, ?_, ?_⟩
  · intro ops
    have h := runSets_inv cfg hmax ops CacheState.empty (SetsInv_empty cfg)
    exact ⟨h.2.2.1, h.2.2.2⟩
  · intro s hInv htrig
    exact (evictMemory_lengths cfg s hInv.1.1 hInv.1.2.1 hInv.2.1 hmax htrig).1
  · intro env s s1 hInv hd htrig hok
    rw [evictLru] at hok
    refine evictFiles_ok_length cfg env (evictMemory cfg s) s1 ?_ hmax hd ?_ hok
    · rw [(evictMemory_file_index cfg s).1]
      exact hInv.1.2.2.1
    · rw [(evictMemory_file_index cfg s).1]
      exact htrig
  · intro env s k1 k2 t1 t2 hInv h1 hrem hkept hl1 hl2
    rw [evictLru, (evictFiles_memory cfg env _).1] at hrem hkept
    exact evictMemory_order cfg s hInv.1.1 hInv.1.2.1 k1 k2 t1 t2 h1 hrem hkept hl1 hl2
  · intro env s k1 k2 e1 e2 hInv h1 hrem hkept hl1 hl2
    rw [evictLru] at hrem hkept
    have hfi := (evictMemory_file_index cfg s).1
    refine evictFiles_order cfg env (evictMemory cfg s) ?_ k1 k2 e1 e2 ?_ hrem hkept ?_ ?_
    · rw [hfi]; exact hInv.1.2.2.1
    · rw [hfi]; exact h1
    · rw [hfi]; exact hl1
    · rw [hfi]; exact hl2

/-- Witness for C3 at `max_size = 2`: a three-`set` run stays within the
bound, and on a full two-entry state the eviction halves evict exactly the
oldest-accessed key of each tier. -/
theorem C3_lru_bound_witness :
    ((runSets ⟨300, 2, true, fun u => u⟩
        [(Env.clean 10, "u1", "d1"), (Env.clean 20, "u2", "d2"), (Env.clean 30, "u3", "d3")]
        CacheState.empty).memory_cache.length ≤ 2 ∧
      (runSets ⟨300, 2, true, fun u => u⟩
        [(Env.clean 10, "u1", "d1"), (Env.clean 20, "u2", "d2"), (Env.clean 30, "u3", "d3")]
        CacheState.empty).file_index.length ≤ 2) ∧
    (evictMemory ⟨300, 2, true, fun u => u⟩
      ⟨[("a", ("d1", 10)), ("b", ("d2", 20))], [("a", 15), ("b", 25)],
        [("f1", ⟨"f1", 900, 900⟩), ("f2", ⟨"f2", 950, 950⟩)],
        [("f1", "x"), ("f2", "y")]⟩).memory_cache.length = 2 - 1 ∧
    (15 : Int) ≤ 25 ∧
    (900 : Int) ≤ 950 := by
  have h := C3_lru_bound ⟨300, 2, true, fun u => u⟩ (by decide)
  have hInv : SetsInv ⟨300, 2, true, fun u => u⟩
      ⟨[("a", ("d1", 10)), ("b", ("d2", 20))], [("a", 15), ("b", 25)],
        [("f1", ⟨"f1", 900, 900⟩), ("f2", ⟨"f2", 950, 950⟩)],
        [("f1", "x"), ("f2", "y")]⟩ :=
    ⟨by decide, fun k => Iff.rfl, by decide, by decide⟩
  refine ⟨h.1 _, h.2.1 _ hInv (by decide), ?_, ?_⟩
  · exact h.2.2.2.1 (Env.clean 1000) _ "a" "b" 15 25 hInv (by decide) (by decide)
      (by decide) rfl rfl
  · exact h.2.2.2.2 (Env.clean 1000) _ "f1" "f2" ⟨"f1", 900, 900⟩ ⟨"f2", 950, 950⟩ hInv
      (by decide) (by decide) (by decide) rfl rfl

/-! ## Response parser (`HTTPClient._parse_response`, http_client.py:135-171)

The parser takes the raw received bytes.  `bytes.decode('utf-8',
errors='ignore')` is total — invalid byte sequences are dropped — so the
`except UnicodeDecodeError` fallback to latin-1 in the source is dead code
and decoding never raises.  The decoder below follows CPython's UTF-8
acceptor (no overlong forms, no surrogates, max U+10FFFF); on an error the
valid prefix of the current sequence is skipped and scanning resumes at
the offending byte. -/

/-- Continuation byte test `0x80 ≤ b ≤ 0xBF`. -/
def isCont (b : Nat) : Bool := 0x80 ≤ b ∧ b ≤ 0xBF

/-- Valid second byte of a 3-byte sequence headed by `b`. -/
def isCont3 (b b2 : Nat) : Bool :=
  (b = 0xE0 ∧ 0xA0 ≤ b2 ∧ b2 ≤ 0xBF) ∨ (b = 0xED ∧ 0x80 ≤ b2 ∧ b2 ≤ 0x9F) ∨
  (b ≠ 0xE0 ∧ b ≠ 0xED ∧ isCont b2)

/-- Valid second byte of a 4-byte sequence headed by `b`. -/
def isCont4 (b b2 : Nat) : Bool :=
  (b = 0xF0 ∧ 0x90 ≤ b2 ∧ b2 ≤ 0xBF) ∨ (b = 0xF4 ∧ 0x80 ≤ b2 ∧ b2 ≤ 0x8F) ∨
  (b ≠ 0xF0 ∧ b ≠ 0xF4 ∧ isCont b2)

/-- UTF-8 decoding with `errors='ignore'`: total, skipping ill-formed
sequences, as CPython's decoder does. -/
def utf8DecodeIgnore : List Nat → List Char
  | [] => []
  | b :: bs =>
    if b < 0x80 then Char.ofNat b :: utf8DecodeIgnore bs
    else if 0xC2 ≤ b ∧ b ≤ 0xDF then
      match bs with
      | [] => []
      | b2 :: rest =>
        if isCont b2 then
          Char.ofNat ((b - 0xC0) * 64 + (b2 - 0x80)) :: utf8DecodeIgnore rest
        else utf8DecodeIgnore (b2 :: rest)
    else if 0xE0 ≤ b ∧ b ≤ 0xEF then
      match bs with
      | [] => []
      | b2 :: rest =>
        if isCont3 b b2 then
          match rest with
          | [] => []
          | b3 :: rest2 =>
            if isCont b3 then
              Char.ofNat ((b - 0xE0) * 4096 + (b2 - 0x80) * 64 + (b3 - 0x80)) ::
                utf8DecodeIgnore rest2
            else utf8DecodeIgnore (b3 :: rest2)
        else utf8DecodeIgnore (b2 :: rest)
    else if 0xF0 ≤ b ∧ b ≤ 0xF4 then
      match bs with
      | [] => []
      | b2 :: rest =>
        if isCont4 b b2 then
          match rest with
          | [] => []
          | b3 :: rest2 =>
            if isCont b3 then
              match rest2 with
              | [] => []
              | b4 :: rest3 =>
                if isCont b4 then
                  Char.ofNat ((b - 0xF0) * 262144 + (b2 - 0x80) * 4096 +
                    (b3 - 0x80) * 64 + (b4 - 0x80)) :: utf8DecodeIgnore rest3
                else utf8DecodeIgnore (b4 :: rest3)
            else utf8DecodeIgnore (b3 :: rest2)
        else utf8DecodeIgnore (b2 :: rest)
    else utf8DecodeIgnore bs

/-- UTF-8 encoding of one character. -/
def utf8EncodeCharNat (c : Char) : List Nat :=
  if c.toNat < 0x80 then [c.toNat]
  else if c.toNat < 0x800 then [0xC0 + c.toNat / 64, 0x80 + c.toNat % 64]
  else if c.toNat < 0x10000 then
    [0xE0 + c.toNat / 4096, 0x80 + (c.toNat / 64) % 64, 0x80 + c.toNat % 64]
  else
    [0xF0 + c.toNat / 262144, 0x80 + (c.toNat / 4096) % 64,
      0x80 + (c.toNat / 64) % 64, 0x80 + c.toNat % 64]

/-- UTF-8 encoding of a string into its byte list, for concrete inputs. -/
def strBytes (s : String) : List Nat :=
  s.data.foldr (fun c acc => utf8EncodeCharNat c ++ acc) []

/-- Substring test, Python `pat in s`. -/
def hasSubstr (pat : List Char) : List Char → Bool
  | [] => pat.isEmpty
  | c :: cs => pat.isPrefixOf (c :: cs) || hasSubstr pat cs

/-- Python `s.split(pat, 1)`: the parts before and after the first
occurrence of `pat`, or `none` when `pat` does not occur. -/
def splitOnce (pat : List Char) : List Char → Option (List Char × List Char)
  | [] => if pat.isEmpty then some ([], []) else none
  | c :: cs =>
    if pat.isPrefixOf (c :: cs) then some ([], (c :: cs).drop pat.length)
    else
      match splitOnce pat cs with
      | some (l, r) => some (c :: l, r)
      | none => none

/-- Python `header_section.split('\r\n')`: split on every (leftmost,
non-overlapping) occurrence of the two-character separator. -/
def splitLinesCRLF : List Char → List (List Char)
  | [] => [[]]
  | '\r' :: '\n' :: rest => [] :: splitLinesCRLF rest
  | c :: rest =>
    match splitLinesCRLF rest with
    | l :: ls => (c :: l) :: ls
    | [] => [[c]]

/-- Python whitespace for `str.strip()` / `int()` (the code points with
the Unicode whitespace property recognised by CPython's str methods). -/
def pyWhitespaceChar (c : Char) : Bool :=
  c.toNat ∈ [0x09, 0x0A, 0x0B, 0x0C, 0x0D, 0x1C, 0x1D, 0x1E, 0x1F, 0x20,
    0x85, 0xA0, 0x1680, 0x2000, 0x2001, 0x2002, 0x2003, 0x2004, 0x2005,
    0x2006, 0x2007, 0x2008, 0x2009, 0x200A, 0x2028, 0x2029, 0x202F, 0x205F, 0x3000]

/-- Python `str.strip()`. -/
def pyStrip (s : List Char) : List Char :=
  ((s.dropWhile pyWhitespaceChar).reverse.dropWhile pyWhitespaceChar).reverse

/-- Python `str.lower()` (ASCII range; the header names this program
receives are ASCII — non-ASCII case folding is not modelled). -/
def pyLower (s : List Char) : List Char :=
  s.map Char.toLower

/-- Digit run with single underscores allowed between digits, the tail of
CPython's `int()` grammar. -/
def parseDigitsGo (acc : Nat) : List Char → Option Nat
  | [] => some acc
  | c :: rest =>
    if c.isDigit then parseDigitsGo (acc * 10 + (c.toNat - 48)) rest
    else if c = '_' then
      match rest with
      | [] => none
      | c2 :: rest2 =>
        if c2.isDigit then parseDigitsGo (acc * 10 + (c2.toNat - 48)) rest2
        else none
    else none

def parseDigitsU : List Char → Option Nat
  | [] => none
  | c :: rest => if c.isDigit then parseDigitsGo (c.toNat - 48) rest else none

/-- Python `int(str)`: strip whitespace, optional sign, ASCII digits with
underscore separators (non-ASCII decimal digits, which CPython also
accepts, are not modelled — the program's status codes are ASCII). -/
def pyIntOfString (s : List Char) : Option Int :=
  match pyStrip s with
  | '+' :: rest => (parseDigitsU rest).map Int.ofNat
  | '-' :: rest => (parseDigitsU rest).map (fun n => -(n : Int))
  | rest => (parseDigitsU rest).map Int.ofNat

/-- Python `s.split(' ', 2)`. -/
def pySplitSpace2 (s : List Char) : List (List Char) :=
  match splitOnce [' '] s with
  | none => [s]
  | some (a, r1) =>
    match splitOnce [' '] r1 with
    | none => [a, r1]
    | some (b, r2) => [a, b, r2]

/-- Parsed response (`headers, body` as returned by `_parse_response`).
In the source, `status_code` and `status_message` live in the same dict as
the real headers (http_client.py:161-164); they are separate fields here,
so a wire header literally named `status_code` — which would overwrite the
int in the Python dict — is not modelled. -/
structure ParsedResponse where
  status_code : Int
  status_message : String
  headers : List (String × String)
  body : String
deriving Repr, DecidableEq

/-- Parse failures of `_parse_response` (each a raised `Exception` in the
source; `badStatusCode` is the `ValueError` from `int(...)`). -/
inductive ParseErr
  | noSeparator
  | badStatusLine
  | badStatusCode
deriving Repr, DecidableEq

/-- Header accumulation (http_client.py:166-169): lines with a colon are
split at the first colon, the key stripped and lowercased, the value
stripped; colon-less lines are ignored; duplicate names keep the last
value (dict assignment). -/
def buildHeaders (lines : List (List Char)) : List (String × String) :=
  lines.foldl
    (fun acc line =>
      if line.contains ':' then
        match splitOnce [':'] line with
        | some (k, v) =>
          dinsert (String.mk (pyLower (pyStrip k))) (String.mk (pyStrip v)) acc
        | none => acc
      else acc)
    []

/-- The separator `'\r\n\r\n'`. -/
def sepCRLF2 : List Char := ['\r', '\n', '\r', '\n']

/-- First element of a list of lines, with a default. -/
def headOr (d : List Char) : List (List Char) → List Char
  | l :: _ => l
  | [] => d

/-- The status line the parser will split: first `'\r\n'`-line of the part
before the first blank line (defined as `[]` when no separator exists, in
which case the parser has already failed). -/
def statusLineOfSplit : Option (List Char × List Char) → List Char
  | some (h, _) => headOr [] (splitLinesCRLF h)
  | none => []

def statusLineOf (rs : List Char) : List Char :=
  statusLineOfSplit (splitOnce sepCRLF2 rs)

/-- Continuation of `_parse_response` on `int(status_parts[1])`
(http_client.py:157): a non-integer token raises `ValueError`. -/
def parseCode (restLines : List (List Char)) (body : List Char)
    (restp : List (List Char)) : Option Int → Except ParseErr ParsedResponse
  | none => .error .badStatusCode
  | some code =>
    .ok ⟨code, String.mk (headOr [] restp), buildHeaders restLines, String.mk body⟩

/-- Continuation of `_parse_response` on `status_line.split(' ', 2)`
(http_client.py:152-158): fewer than two parts is an invalid status line;
`status_message` is the third part when present, else the empty string. -/
def parseStatusTokens (restLines : List (List Char)) (body : List Char) :
    List (List Char) → Except ParseErr ParsedResponse
  | _ :: p1 :: restp => parseCode restLines body restp (pyIntOfString p1)
  | _ => .error .badStatusLine

/-- Continuation of `_parse_response` on `header_section.split('\r\n')`
(http_client.py:146-152); the `[]` arm mirrors the source's dead
`if not header_lines` check (a split is never empty). -/
def parseLines (body : List Char) : List (List Char) → Except ParseErr ParsedResponse
  | [] => .error .badStatusLine
  | statusLine :: restLines =>
    parseStatusTokens restLines body (pySplitSpace2 statusLine)

/-- Continuation of `_parse_response` on
`response_str.split('\r\n\r\n', 1)` (http_client.py:145). -/
def parseSplit : Option (List Char × List Char) → Except ParseErr ParsedResponse
  | none => .error .noSeparator
  | some (headerSec, body) => parseLines body (splitLinesCRLF headerSec)

/-- `HTTPClient._parse_response` (http_client.py:135-171) on the raw
bytes: decode (total, so the `except UnicodeDecodeError` latin-1 fallback
is dead code and decoding never raises), require the blank-line separator,
split the header section into lines, split the status line on single
spaces with `maxsplit=2`, require at least two parts and an integer status
code, then build the header map.  The body is split into the helper
functions above along the source's control flow. -/
def parseResponse (bytes : List Nat) : Except ParseErr ParsedResponse :=
  if hasSubstr sepCRLF2 (utf8DecodeIgnore bytes) = false then .error .noSeparator
  else parseSplit (splitOnce sepCRLF2 (utf8DecodeIgnore bytes))

/-- Second token of the split status line, `status_parts[1]`. -/
def statusToken (rs : List Char) : Option (List Char) :=
  (pySplitSpace2 (statusLineOf rs))[1]?

theorem splitOnce_isSome_iff (pat s : List Char) :
    (splitOnce pat s).isSome = hasSubstr pat s := by
  induction s with
  | nil =>
    rw [splitOnce, hasSubstr]
    by_cases hp : pat.isEmpty = true
    · simp [hp]
    · simp [hp]
  | cons c cs ih =>
    rw [splitOnce, hasSubstr]
    by_cases hp : pat.isPrefixOf (c :: cs) = true
    · simp [hp]
    · rw [if_neg hp]
      have hm : (match splitOnce pat cs with
          | some (l, r) => some (c :: l, r)
          | none => (none : Option (List Char × List Char))).isSome =
          (splitOnce pat cs).isSome := by
        cases h : splitOnce pat cs with
        | none => simp
        | some pr => obtain ⟨l, r⟩ := pr; simp
      rw [hm, ih]
      simp [hp]

/--
C6.  For every byte string given to the response parser, parsing fails
exactly when no blank-line (`'\r\n\r\n'`) header/body separator is found
in the decoded text, or the status line splits into fewer than two
space-separated parts, or the status code token is not an `int(...)`
integer.  Decoding the bytes themselves never raises: `utf8DecodeIgnore`
is a total function (Python's `decode('utf-8', errors='ignore')`), so the
latin-1 fallback in the source is dead code.
-/
theorem C6_parse_failure_conditions (bs : List Nat) :
    (∃ e, parseResponse bs = .error e) ↔
      hasSubstr sepCRLF2 (utf8DecodeIgnore bs) = false ∨
      (pySplitSpace2 (statusLineOf (utf8DecodeIgnore bs))).length < 2 ∨
      (∃ t, statusToken (utf8DecodeIgnore bs) = some t ∧ pyIntOfString t = none) := by
  rw [parseResponse]
  by_cases hsep : hasSubstr sepCRLF2 (utf8DecodeIgnore bs) = false
  · rw [if_pos hsep]
    exact ⟨fun _ => Or.inl hsep, fun _ => ⟨.noSeparator, rfl⟩⟩
  · rw [if_neg hsep]
    have hsome : (splitOnce sepCRLF2 (utf8DecodeIgnore bs)).isSome := by
      rw [splitOnce_isSome_iff]
      cases h : hasSubstr sepCRLF2 (utf8DecodeIgnore bs) with
      | false => exact absurd h hsep
      | true => rfl
    obtain ⟨⟨h, b⟩, hsp⟩ := Option.isSome_iff_exists.mp hsome
    rw [hsp, parseSplit]
    have hstl : statusLineOf (utf8DecodeIgnore bs) = headOr [] (splitLinesCRLF h) := by
      rw [statusLineOf, hsp, statusLineOfSplit]
    have htok : statusToken (utf8DecodeIgnore bs) =
        (pySplitSpace2 (headOr [] (splitLinesCRLF h)))[1]? := by
      rw [statusToken, hstl]
    rw [hstl, htok]
    cases hsl : splitLinesCRLF h with
    | nil =>
      rw [parseLines, headOr]
      refine ⟨fun _ => Or.inr (Or.inl ?_), fun _ => ⟨.badStatusLine, rfl⟩⟩
      rw [show pySplitSpace2 [] = [[]] from rfl]
      decide
    | cons l restL =>
      rw [parseLines, headOr]
      rcases hps : pySplitSpace2 l with - | ⟨p0, ps1⟩
      · exact ⟨fun _ => Or.inr (Or.inl (by decide)), fun _ => ⟨.badStatusLine, rfl⟩⟩
      rcases ps1 with - | ⟨p1, restp⟩
      · exact ⟨fun _ => Or.inr (Or.inl (by simp)), fun _ => ⟨.badStatusLine, rfl⟩⟩
      · rw [parseStatusTokens]
        cases hint : pyIntOfString p1 with
        | none =>
          rw [parseCode]
          exact ⟨fun _ => Or.inr (Or.inr ⟨p1, by simp, hint⟩),
            fun _ => ⟨.badStatusCode, rfl⟩⟩
        | some code =>
          rw [parseCode]
          constructor
          · rintro ⟨e, he⟩
            exact Except.noConfusion he
          · rintro (hfalse | hlen | ⟨t, ht, htn⟩)
            · exact absurd hfalse hsep
            · simp at hlen
              omega
            · have hp1 : ((p0 :: p1 :: restp) : List (List Char))[1]? = some p1 := by simp
              rw [hp1] at ht
              have hteq : p1 = t := Option.some.inj ht
              rw [← hteq, hint] at htn
              exact Option.noConfusion htn

/-- Witness for C6 on a malformed concrete response (non-integer status
code token). -/
theorem C6_witness :
    (∃ e, parseResponse (strBytes "HTTP/1.1 abc OK\r\n\r\nx") = .error e) ↔
      hasSubstr sepCRLF2 (utf8DecodeIgnore (strBytes "HTTP/1.1 abc OK\r\n\r\nx")) = false ∨
      (pySplitSpace2 (statusLineOf (utf8DecodeIgnore (strBytes "HTTP/1.1 abc OK\r\n\r\nx")))).length < 2 ∨
      (∃ t, statusToken (utf8DecodeIgnore (strBytes "HTTP/1.1 abc OK\r\n\r\nx")) = some t ∧
        pyIntOfString t = none) :=
  C6_parse_failure_conditions (strBytes "HTTP/1.1 abc OK\r\n\r\nx")

theorem splitOnce_char_append (c : Char) (k v : List Char) (hk : c ∉ k) :
    splitOnce [c] (k ++ c :: v) = some (k, v) := by
  induction k with
  | nil =>
    rw [List.nil_append, splitOnce]
    have hp : [c].isPrefixOf (c :: v) = true := by
      simp [List.isPrefixOf]
    rw [if_pos hp]
    rfl
  | cons d k ih =>
    rw [List.cons_append, splitOnce]
    rw [List.mem_cons] at hk
    push_neg at hk
    have hp : ¬ ([c].isPrefixOf (d :: (k ++ c :: v)) = true) := by
      simp [List.isPrefixOf]
      exact fun h => hk.1 h
    rw [if_neg hp, ih hk.2]

theorem contains_append_self (c : Char) (k v : List Char) :
    (k ++ c :: v).contains c = true := by
  induction k with
  | nil => simp
  | cons d k ih => simp [ih]

theorem not_mem_of_contains_eq_false {c : Char} {l : List Char}
    (h : l.contains c = false) : c ∉ l := by
  intro hmem
  simp [List.contains, List.elem_eq_mem, hmem] at h

/--
C7.  Header parsing: the concrete bytes
`"HTTP/1.1 404 Not Found\r\nContent-Type: text/plain\r\n\r\nBody"` parse
to status code 404, status message `"Not Found"`, a header map containing
`content-type ↦ "text/plain"`, and body `"Body"`.  Generically, a header
line without a colon is ignored (it leaves the header map unchanged), and
a line `k ++ ":" ++ v` whose key part has no colon — the value part may
contain further colons, so the split is at the first colon only — binds
the stripped, lowercased key to the stripped value, overwriting any
earlier binding of the same name (last value wins, by dict assignment).
-/
theorem C7_header_parsing :
    parseResponse (strBytes "HTTP/1.1 404 Not Found\r\nContent-Type: text/plain\r\n\r\nBody") =
      .ok ⟨404, "Not Found", [("content-type", "text/plain")], "Body"⟩ ∧
    (∀ (lines : List (List Char)) (l : List Char), l.contains ':' = false →
      buildHeaders (lines ++ [l]) = buildHeaders lines) ∧
    (∀ (lines : List (List Char)) (k v : List Char), k.contains ':' = false →
      dlookup (String.mk (pyLower (pyStrip k)))
        (buildHeaders (lines ++ [k ++ ':' :: v])) =
        some (String.mk (pyStrip v))) := by
  refine ⟨rfl, ?_, ?_⟩
  · intro lines l hl
    rw [buildHeaders, buildHeaders, List.foldl_append, List.foldl_cons, List.foldl_nil]
    rw [hl, if_neg Bool.false_ne_true]
  · intro lines k v hk
    rw [buildHeaders, List.foldl_append, List.foldl_cons, List.foldl_nil]
    simp only [contains_append_self,
      splitOnce_char_append ':' k v (not_mem_of_contains_eq_false hk),
      if_true, eq_self_iff_true]
    exact dlookup_dinsert_self _ _ _

/-- Witness for C7 with the generic parts instantiated at concrete header
lines: a colon-less line is ignored and `"Key: a:b"` binds `key` to
`"a:b"` (first-colon split), overwriting an earlier `"KEY: old"`. -/
theorem C7_header_parsing_witness :
    parseResponse (strBytes "HTTP/1.1 404 Not Found\r\nContent-Type: text/plain\r\n\r\nBody") =
      .ok ⟨404, "Not Found", [("content-type", "text/plain")], "Body"⟩ ∧
    buildHeaders [['K', 'E', 'Y', ':', ' ', 'o', 'l', 'd'], ['N', 'o', 'C', 'o', 'l', 'o', 'n']] =
      buildHeaders [['K', 'E', 'Y', ':', ' ', 'o', 'l', 'd']] ∧
    dlookup "key"
      (buildHeaders [['K', 'E', 'Y', ':', ' ', 'o', 'l', 'd'],
        ['K', 'e', 'y'] ++ ':' :: [' ', 'a', ':', 'b']]) = some "a:b" := by
  refine ⟨C7_header_parsing.1, ?_, ?_⟩
  · exact C7_header_parsing.2.1 [['K', 'E', 'Y', ':', ' ', 'o', 'l', 'd']]
      ['N', 'o', 'C', 'o', 'l', 'o', 'n'] (by decide)
  · exact C7_header_parsing.2.2 [['K', 'E', 'Y', ':', ' ', 'o', 'l', 'd']]
      ['K', 'e', 'y'] [' ', 'a', ':', 'b'] (by decide)

/-! ## JSON (`json.loads` / `json.dumps` as used by content negotiation)

Python objects produced by `json.loads`.  Non-integral numbers (floats,
`NaN`, `Infinity`) are kept as their raw source text in `jnum`; Python
would hold a float whose `str()`/`repr()` normalisation is not modelled —
no claim below depends on a non-integral number.  Recursive scanners and
the parser take a fuel argument so that they are structurally recursive
(and hence reduce definitionally); fuel is instantiated with more than
the input length, and every recursive step consumes at least one input
character, so the fuel never runs out. -/

inductive JVal where
  | jnull
  | jbool (b : Bool)
  | jint (n : Int)
  | jnum (raw : List Char)
  | jstr (s : List Char)
  | jarr (items : List JVal)
  | jobj (fields : List (String × JVal))
deriving Repr

/-- JSON whitespace (`json` accepts only these four). -/
def jsonWS (c : Char) : Bool := c = ' ' ∨ c = '\t' ∨ c = '\n' ∨ c = '\r'

def skipWS (s : List Char) : List Char := s.dropWhile jsonWS

def hexVal (c : Char) : Option Nat :=
  if '0' ≤ c ∧ c ≤ '9' then some (c.toNat - 48)
  else if 'a' ≤ c ∧ c ≤ 'f' then some (c.toNat - 87)
  else if 'A' ≤ c ∧ c ≤ 'F' then some (c.toNat - 55)
  else none

/-- JSON string body after the opening quote, handling the escape
sequences of the `json` module; `\uXXXX` pairs of surrogates are
combined; a lone surrogate — representable in a Python `str` but not in a
Lean `String` — degrades to `Char.ofNat`'s default, which no claim
exercises. -/
def parseJStrGo : Nat → List Char → Option (List Char × List Char)
  | 0, _ => none
  | _ + 1, [] => none
  | _ + 1, '"' :: rest => some ([], rest)
  | fuel + 1, '\\' :: 'u' :: h1 :: h2 :: h3 :: h4 :: rest =>
    match hexVal h1, hexVal h2, hexVal h3, hexVal h4 with
    | some a, some b, some c, some d =>
      let n := ((a * 16 + b) * 16 + c) * 16 + d
      if 0xD800 ≤ n ∧ n ≤ 0xDBFF then
        match rest with
        | '\\' :: 'u' :: g1 :: g2 :: g3 :: g4 :: rest2 =>
          match hexVal g1, hexVal g2, hexVal g3, hexVal g4 with
          | some a2, some b2, some c2, some d2 =>
            let m := ((a2 * 16 + b2) * 16 + c2) * 16 + d2
            if 0xDC00 ≤ m ∧ m ≤ 0xDFFF then
              (parseJStrGo fuel rest2).map
                (fun p => (Char.ofNat (0x10000 + (n - 0xD800) * 0x400 + (m - 0xDC00)) :: p.1, p.2))
            else (parseJStrGo fuel rest).map (fun p => (Char.ofNat n :: p.1, p.2))
          | _, _, _, _ => (parseJStrGo fuel rest).map (fun p => (Char.ofNat n :: p.1, p.2))
        | _ => (parseJStrGo fuel rest).map (fun p => (Char.ofNat n :: p.1, p.2))
      else (parseJStrGo fuel rest).map (fun p => (Char.ofNat n :: p.1, p.2))
    | _, _, _, _ => none
  | fuel + 1, '\\' :: e :: rest =>
    match e with
    | '"' => (parseJStrGo fuel rest).map (fun p => ('"' :: p.1, p.2))
    | '\\' => (parseJStrGo fuel rest).map (fun p => ('\\' :: p.1, p.2))
    | '/' => (parseJStrGo fuel rest).map (fun p => ('/' :: p.1, p.2))
    | 'b' => (parseJStrGo fuel rest).map (fun p => (Char.ofNat 8 :: p.1, p.2))
    | 'f' => (parseJStrGo fuel rest).map (fun p => (Char.ofNat 12 :: p.1, p.2))
    | 'n' => (parseJStrGo fuel rest).map (fun p => ('\n' :: p.1, p.2))
    | 'r' => (parseJStrGo fuel rest).map (fun p => ('\r' :: p.1, p.2))
    | 't' => (parseJStrGo fuel rest).map (fun p => ('\t' :: p.1, p.2))
    | _ => none
  | fuel + 1, c :: rest =>
    if c.toNat < 0x20 then none
    else (parseJStrGo fuel rest).map (fun p => (c :: p.1, p.2))

def parseJStrRaw (s : List Char) : Option (List Char × List Char) :=
  parseJStrGo (s.length + 1) s

def digitsToNat (ds : List Char) : Nat :=
  ds.foldl (fun acc c => acc * 10 + (c.toNat - 48)) 0

/-- JSON number grammar: optional minus, `0 | [1-9][0-9]*`, optional
fraction and exponent.  A number without fraction or exponent is a Python
`int`; otherwise the consumed text is kept raw (a Python float). -/
def parseJNumber (s : List Char) : Option (JVal × List Char) :=
  let core : List Char → Option (List Char × List Char) := fun t =>
    match t.takeWhile Char.isDigit with
    | [] => none
    | d :: ds =>
      if d = '0' ∧ ds ≠ [] then none
      else some (d :: ds, t.drop (d :: ds).length)
  let sign : Bool := match s with | '-' :: _ => true | _ => false
  let s1 := if sign then s.drop 1 else s
  match core s1 with
  | none => none
  | some (intDigits, r1) =>
    let fracPart : Option (List Char × List Char) :=
      match r1 with
      | '.' :: r2 =>
        match r2.takeWhile Char.isDigit with
        | [] => none
        | f :: fs => some ('.' :: f :: fs, r2.drop (f :: fs).length)
      | _ => some ([], r1)
    match fracPart with
    | none => none
    | some (frac, r3) =>
      let expPart : Option (List Char × List Char) :=
        match r3 with
        | e :: r4 =>
          if e = 'e' ∨ e = 'E' then
            let (sgn, r5) := match r4 with
              | c :: r5a => if c = '+' ∨ c = '-' then ([c], r5a) else ([], r4)
              | [] => ([], r4)
            match r5.takeWhile Char.isDigit with
            | [] => none
            | g :: gs => some (e :: (sgn ++ g :: gs), r5.drop (g :: gs).length)
          else some ([], r3)
        | [] => some ([], r3)
      match expPart with
      | none => none
      | some (ex, r6) =>
        if frac = [] ∧ ex = [] then
          some (.jint (if sign then -(digitsToNat intDigits : Int) else (digitsToNat intDigits : Int)), r6)
        else
          some (.jnum ((if sign then ['-'] else []) ++ intDigits ++ frac ++ ex), r6)

mutual

/-- One JSON value (CPython's `json.loads` grammar, including the
`NaN`/`Infinity` extensions it accepts by default). -/
def parseJVal : Nat → List Char → Option (JVal × List Char)
  | 0, _ => none
  | fuel + 1, s =>
    match skipWS s with
    | '{' :: rest =>
      match skipWS rest with
      | '}' :: rest2 => some (.jobj [], rest2)
      | _ => parseObjItems fuel [] rest
    | '[' :: rest =>
      match skipWS rest with
      | ']' :: rest2 => some (.jarr [], rest2)
      | _ => parseArrItems fuel [] rest
    | '"' :: rest => (parseJStrRaw rest).map (fun p => (.jstr p.1, p.2))
    | 't' :: 'r' :: 'u' :: 'e' :: rest => some (.jbool true, rest)
    | 'f' :: 'a' :: 'l' :: 's' :: 'e' :: rest => some (.jbool false, rest)
    | 'n' :: 'u' :: 'l' :: 'l' :: rest => some (.jnull, rest)
    | 'N' :: 'a' :: 'N' :: rest => some (.jnum ['N', 'a', 'N'], rest)
    | 'I' :: 'n' :: 'f' :: 'i' :: 'n' :: 'i' :: 't' :: 'y' :: rest =>
      some (.jnum ['I', 'n', 'f', 'i', 'n', 'i', 't', 'y'], rest)
    | '-' :: 'I' :: 'n' :: 'f' :: 'i' :: 'n' :: 'i' :: 't' :: 'y' :: rest =>
      some (.jnum ['-', 'I', 'n', 'f', 'i', 'n', 'i', 't', 'y'], rest)
    | t => parseJNumber t

/-- Members of an object; duplicate keys follow dict assignment (last
value wins, first position kept). -/
def parseObjItems : Nat → List (String × JVal) → List Char → Option (JVal × List Char)
  | 0, _, _ => none
  | fuel + 1, acc, s =>
    match skipWS s with
    | '"' :: rest =>
      match parseJStrRaw rest with
      | none => none
      | some (key, r1) =>
        match skipWS r1 with
        | ':' :: r2 =>
          match parseJVal fuel r2 with
          | none => none
          | some (v, r3) =>
            match skipWS r3 with
            | ',' :: r4 => parseObjItems fuel (dinsert (String.mk key) v acc) r4
            | '}' :: r4 => some (.jobj (dinsert (String.mk key) v acc), r4)
            | _ => none
        | _ => none
    | _ => none

/-- Elements of an array. -/
def parseArrItems : Nat → List JVal → List Char → Option (JVal × List Char)
  | 0, _, _ => none
  | fuel + 1, acc, s =>
    match parseJVal fuel s with
    | none => none
    | some (v, r1) =>
      match skipWS r1 with
      | ',' :: r2 => parseArrItems fuel (acc ++ [v]) r2
      | ']' :: r2 => some (.jarr (acc ++ [v]), r2)
      | _ => none

end

/-- `json.loads`: parse one value and require only whitespace after it.
The fuel exceeds the input length; each recursion level consumes at least
one character, so it cannot run out. -/
def loads (s : List Char) : Option JVal :=
  match parseJVal (s.length + 2) s with
  | some (v, rest) => if skipWS rest = [] then some v else none
  | none => none

/-! ### Python `str()` / `repr()` of json-decoded values, `json.dumps(· , indent=2)`

`_format_json` and the HTTP-error branch interpolate decoded values into
f-strings (Python `str()`, which is `repr()` for containers) and call
`json.dumps(value, indent=2)` for nested containers.  `repr` of a string
is modelled with single quotes and the common escapes; Python's
quote-preference rule (double quotes when the text holds a single quote
but no double quote) and its non-ASCII printability classes are not
modelled — no claim depends on the repr of a string.  All recursions are
fueled (structural), with fuel above the nesting depth at every call
site. -/

def natDigitsGo : Nat → Nat → List Char
  | 0, _ => []
  | fuel + 1, n =>
    if n < 10 then [Char.ofNat (48 + n)]
    else natDigitsGo fuel (n / 10) ++ [Char.ofNat (48 + n % 10)]

/-- Python `str` of a nonnegative integer (decimal digits). -/
def natStr (n : Nat) : List Char := natDigitsGo (n + 1) n

/-- Python `str` of an `int`. -/
def intStr : Int → List Char
  | .ofNat n => natStr n
  | .negSucc n => '-' :: natStr (n + 1)

def hexDigitLower (d : Nat) : Char :=
  if d < 10 then Char.ofNat (48 + d) else Char.ofNat (87 + d)

def hex4Lower (n : Nat) : List Char :=
  [hexDigitLower (n / 4096 % 16), hexDigitLower (n / 256 % 16),
   hexDigitLower (n / 16 % 16), hexDigitLower (n % 16)]

/-- `json.dumps` escaping of one string character with `ensure_ascii`
(the default): everything outside printable ASCII becomes `\uXXXX`
(surrogate pairs above U+FFFF). -/
def jsonEscapeChar (c : Char) : List Char :=
  if c = '"' then ['\\', '"']
  else if c = '\\' then ['\\', '\\']
  else if c = '\n' then ['\\', 'n']
  else if c = '\r' then ['\\', 'r']
  else if c = '\t' then ['\\', 't']
  else if c.toNat = 8 then ['\\', 'b']
  else if c.toNat = 12 then ['\\', 'f']
  else if c.toNat < 0x20 ∨ c.toNat > 0x7E then
    if c.toNat ≤ 0xFFFF then '\\' :: 'u' :: hex4Lower c.toNat
    else
      let m := c.toNat - 0x10000
      ('\\' :: 'u' :: hex4Lower (0xD800 + m / 0x400)) ++
        ('\\' :: 'u' :: hex4Lower (0xDC00 + m % 0x400))
  else [c]

def jsonEscape (s : List Char) : List Char := s.flatMap jsonEscapeChar

def indentSp (lvl : Nat) : List Char := List.replicate (2 * lvl) ' '

mutual

/-- `json.dumps(v, indent=2)` rendered at nesting level `lvl`. -/
def dumpsGo : Nat → Nat → JVal → List Char
  | 0, _, _ => []
  | fuel + 1, lvl, v =>
    match v with
    | .jnull => ['n', 'u', 'l', 'l']
    | .jbool true => ['t', 'r', 'u', 'e']
    | .jbool false => ['f', 'a', 'l', 's', 'e']
    | .jint n => intStr n
    | .jnum raw => raw
    | .jstr s => '"' :: jsonEscape s ++ ['"']
    | .jarr [] => ['[', ']']
    | .jarr (x :: xs) =>
      '[' :: '\n' :: dumpsArrItems fuel (lvl + 1) (x :: xs) ++
        '\n' :: indentSp lvl ++ [']']
    | .jobj [] => ['{', '}']
    | .jobj (f :: fs) =>
      '{' :: '\n' :: dumpsObjItems fuel (lvl + 1) (f :: fs) ++
        '\n' :: indentSp lvl ++ ['}']

def dumpsArrItems : Nat → Nat → List JVal → List Char
  | 0, _, _ => []
  | _ + 1, _, [] => []
  | fuel + 1, lvl, [x] => indentSp lvl ++ dumpsGo fuel lvl x
  | fuel + 1, lvl, x :: y :: xs =>
    indentSp lvl ++ dumpsGo fuel lvl x ++ ',' :: '\n' :: dumpsArrItems fuel lvl (y :: xs)

def dumpsObjItems : Nat → Nat → List (String × JVal) → List Char
  | 0, _, _ => []
  | _ + 1, _, [] => []
  | fuel + 1, lvl, [(k, v)] =>
    indentSp lvl ++ '"' :: jsonEscape k.data ++ '"' :: ':' :: ' ' :: dumpsGo fuel lvl v
  | fuel + 1, lvl, (k, v) :: f :: fs =>
    indentSp lvl ++ '"' :: jsonEscape k.data ++ '"' :: ':' :: ' ' :: dumpsGo fuel lvl v ++
      ',' :: '\n' :: dumpsObjItems fuel lvl (f :: fs)

end

/-- `repr` escaping of one character inside a single-quoted Python string
literal (common escapes only, see section comment). -/
def pyReprStrChar (c : Char) : List Char :=
  if c = Char.ofNat 39 then ['\\', Char.ofNat 39]
  else if c = '\\' then ['\\', '\\']
  else if c = '\n' then ['\\', 'n']
  else if c = '\r' then ['\\', 'r']
  else if c = '\t' then ['\\', 't']
  else if c.toNat < 0x20 then ['\\', 'x', hexDigitLower (c.toNat / 16), hexDigitLower (c.toNat % 16)]
  else [c]

mutual

/-- Python `repr` of a json-decoded value. -/
def pyReprJ : Nat → JVal → List Char
  | 0, _ => []
  | fuel + 1, v =>
    match v with
    | .jnull => ['N', 'o', 'n', 'e']
    | .jbool true => ['T', 'r', 'u', 'e']
    | .jbool false => ['F', 'a', 'l', 's', 'e']
    | .jint n => intStr n
    | .jnum raw => raw
    | .jstr s => Char.ofNat 39 :: s.flatMap pyReprStrChar ++ [Char.ofNat 39]
    | .jarr items => '[' :: pyReprArrItems fuel items ++ [']']
    | .jobj fields => '{' :: pyReprObjItems fuel fields ++ ['}']

def pyReprArrItems : Nat → List JVal → List Char
  | 0, _ => []
  | _ + 1, [] => []
  | fuel + 1, [x] => pyReprJ fuel x
  | fuel + 1, x :: y :: xs => pyReprJ fuel x ++ ',' :: ' ' :: pyReprArrItems fuel (y :: xs)

def pyReprObjItems : Nat → List (String × JVal) → List Char
  | 0, _ => []
  | _ + 1, [] => []
  | fuel + 1, [(k, v)] =>
    Char.ofNat 39 :: k.data.flatMap pyReprStrChar ++ Char.ofNat 39 :: ':' :: ' ' :: pyReprJ fuel v
  | fuel + 1, (k, v) :: f :: fs =>
    Char.ofNat 39 :: k.data.flatMap pyReprStrChar ++ Char.ofNat 39 :: ':' :: ' ' :: pyReprJ fuel v ++
      ',' :: ' ' :: pyReprObjItems fuel (f :: fs)

end

/-- Python `str()` of a json-decoded value, as an f-string interpolates
it: a string renders as itself, everything else as its `repr`. -/
def pyStrJ (fuel : Nat) : JVal → List Char
  | .jstr s => s
  | v => pyReprJ fuel v

/-- Whether the decoded value is a `dict` or `list` (the
`isinstance(value, (dict, list))` tests of `_format_json`). -/
def isContainer : JVal → Bool
  | .jobj _ => true
  | .jarr _ => true
  | _ => false

def joinNL (xs : List (List Char)) : List Char := List.intercalate ['\n'] xs

/-- `HTTPClient._format_json` (http_client.py:216-232). -/
def format_json (fuel : Nat) (v : JVal) : List Char :=
  match v with
  | .jobj fields =>
    joinNL (fields.map (fun kv =>
      kv.1.data ++ ':' :: ' ' ::
        (if isContainer kv.2 then dumpsGo fuel 0 kv.2 else pyStrJ fuel kv.2)))
  | .jarr items =>
    joinNL (items.enum.map (fun iv =>
      '[' :: natStr iv.1 ++ ']' :: ' ' ::
        (if isContainer iv.2 then dumpsGo fuel 0 iv.2 else pyStrJ fuel iv.2)))
  | w => pyStrJ fuel w

/-! ## `HTMLParser.extract_text` (html_parser.py:17-89)

The regex substitutions of `extract_text` use a fixed family of
patterns; each is embedded as a dedicated scanner with the exact
semantics of `re.sub` for that pattern (leftmost match, resume after the
replacement, advance one character on a failed start position).  The
scanners take fuel to be structurally recursive; each step consumes at
least one input character, so fuel `length + 1` never runs out.
`extract_text` returns `Except Unit` because the numeric-entity lambdas
call `chr`, which raises `ValueError` for code points above `0x10FFFF`
and that exception propagates out of `extract_text`. -/

/-- Case-insensitive literal prefix match (`re.IGNORECASE` over the
ASCII tag names used by the parser); on success returns the rest. -/
def matchCI : List Char → List Char → Option (List Char)
  | [], s => some s
  | _ :: _, [] => none
  | p :: ps, c :: cs => if c.toLower = p then matchCI ps cs else none

/-- `[^>]*>`: skip to just after the first `>` (none if absent). -/
def dropToGt : List Char → Option (List Char)
  | [] => none
  | '>' :: rest => some rest
  | _ :: rest => dropToGt rest

/-- Earliest occurrence of a case-insensitive literal; returns the rest
after it (`.*?pat` with DOTALL). -/
def dropAfterCI (pat : List Char) : List Char → Option (List Char)
  | [] => matchCI pat []
  | c :: cs =>
    match matchCI pat (c :: cs) with
    | some r => some r
    | none => dropAfterCI pat cs

/-- `re.sub(f'<tag[^>]*>.*?</tag>', '', html, DOTALL | IGNORECASE)`:
`openPat` is `<tag`, `closePat` is `</tag>`. -/
def removeBlocksGo (openPat closePat : List Char) : Nat → List Char → List Char
  | 0, s => s
  | _ + 1, [] => []
  | fuel + 1, c :: cs =>
    match matchCI openPat (c :: cs) with
    | some afterOpen =>
      match dropToGt afterOpen with
      | some afterGt =>
        match dropAfterCI closePat afterGt with
        | some rest => removeBlocksGo openPat closePat fuel rest
        | none => c :: removeBlocksGo openPat closePat fuel cs
      | none => c :: removeBlocksGo openPat closePat fuel cs
    | none => c :: removeBlocksGo openPat closePat fuel cs

/-- `re.sub(f'<tag[^>]*>', repl, html, IGNORECASE)`: `openPat` is
`<tag`.  (As in Python, `<p[^>]*>` also matches `<pre>`.) -/
def subOpenTagGo (openPat repl : List Char) : Nat → List Char → List Char
  | 0, s => s
  | _ + 1, [] => []
  | fuel + 1, c :: cs =>
    match matchCI openPat (c :: cs) with
    | some afterOpen =>
      match dropToGt afterOpen with
      | some rest => repl ++ subOpenTagGo openPat repl fuel rest
      | none => c :: subOpenTagGo openPat repl fuel cs
    | none => c :: subOpenTagGo openPat repl fuel cs

/-- `re.sub(pat, repl, html, IGNORECASE)` for a literal pattern
(`</tag>`). -/
def subLiteralCIGo (pat repl : List Char) : Nat → List Char → List Char
  | 0, s => s
  | _ + 1, [] => []
  | fuel + 1, c :: cs =>
    match matchCI pat (c :: cs) with
    | some rest => repl ++ subLiteralCIGo pat repl fuel rest
    | none => c :: subLiteralCIGo pat repl fuel cs

/-- `re.sub(r'<[^>]+>', '', html)`: at `<` with at least one non-`>`
before the next `>`, drop through that `>`. -/
def subAnyTagGo : Nat → List Char → List Char
  | 0, s => s
  | _ + 1, [] => []
  | fuel + 1, c :: cs =>
    if c = '<' then
      match cs with
      | d :: ds =>
        if d = '>' then c :: subAnyTagGo fuel cs
        else
          match dropToGt (d :: ds) with
          | some rest => subAnyTagGo fuel rest
          | none => c :: subAnyTagGo fuel cs
      | [] => [c]
    else c :: subAnyTagGo fuel cs

/-- Python `str.replace` (case-sensitive literal, all occurrences). -/
def replaceAllGo (pat repl : List Char) : Nat → List Char → List Char
  | 0, s => s
  | _ + 1, [] => []
  | fuel + 1, c :: cs =>
    if pat.isPrefixOf (c :: cs) then
      repl ++ replaceAllGo pat repl fuel ((c :: cs).drop pat.length)
    else c :: replaceAllGo pat repl fuel cs

def removeTagBlock (tag : List Char) (h : List Char) : List Char :=
  removeBlocksGo ('<' :: tag) ('<' :: '/' :: tag ++ ['>']) (h.length + 1) h

def subOpenTag (tagPat repl : List Char) (h : List Char) : List Char :=
  subOpenTagGo tagPat repl (h.length + 1) h

def subLiteralCI (pat repl : List Char) (h : List Char) : List Char :=
  subLiteralCIGo pat repl (h.length + 1) h

def subAnyTag (h : List Char) : List Char :=
  subAnyTagGo (h.length + 1) h

def replaceAllL (pat repl : List Char) (h : List Char) : List Char :=
  replaceAllGo pat repl (h.length + 1) h

def removeTagsList : List (List Char) :=
  ["script".data, "style".data, "noscript".data, "head".data, "meta".data, "link".data]

def blockTagsList : List (List Char) :=
  ["div".data, "p".data, "br".data, "h1".data, "h2".data, "h3".data, "h4".data,
   "h5".data, "h6".data, "ul".data, "ol".data, "li".data, "blockquote".data,
   "pre".data, "hr".data, "table".data, "tr".data, "td".data, "th".data,
   "section".data, "article".data, "aside".data, "nav".data]

/-- The entity replacement table of `_decode_html_entities`, in
iteration order.  The source file writes the `&lsquo;`/`&rsquo;` values
as `'''`, which Python tokenises as a triple-quoted string: the value
bound to `&lsquo;` is the raw text up to the next `'''` — a comma, a
newline, twelve spaces and the text between apostrophes — and `&rsquo;`
is not a key of the dict at all.  `&ldquo;`/`&rdquo;` both map to the
ASCII double quote (that is what the source literally contains). -/
def entityTable : List (List Char × List Char) :=
  [("&amp;".data, ['&']),
   ("&lt;".data, ['<']),
   ("&gt;".data, ['>']),
   ("&quot;".data, ['"']),
   ("&apos;".data, [Char.ofNat 39]),
   ("&nbsp;".data, [' ']),
   ("&ndash;".data, [Char.ofNat 0x2013]),
   ("&mdash;".data, [Char.ofNat 0x2014]),
   ("&ldquo;".data, ['"']),
   ("&rdquo;".data, ['"']),
   ("&lsquo;".data,
     [',', '\n'] ++ List.replicate 12 ' ' ++
       Char.ofNat 39 :: "&rsquo;".data ++ [Char.ofNat 39, ':', ' ']),
   ("&hellip;".data, [Char.ofNat 0x2026]),
   ("&copy;".data, [Char.ofNat 0xA9]),
   ("&reg;".data, [Char.ofNat 0xAE]),
   ("&trade;".data, [Char.ofNat 0x2122])]

def hexDigitsToNat (ds : List Char) : Nat :=
  ds.foldl (fun acc c => acc * 16 + (hexVal c).getD 0) 0

/-- `re.sub(r'&#(\d+);', lambda m: chr(int(m.group(1))), text)`: the
first match whose code point exceeds `0x10FFFF` makes `chr` raise
`ValueError`, which propagates.  (`\d` also covers non-ASCII decimal
digits in Python; only ASCII digits are modelled — no claim involves
non-ASCII digits.  A code point that is a surrogate is accepted by
Python's `chr` but not representable as a Lean `Char`; `Char.ofNat`
degrades it, and no claim involves one.) -/
def decEntGo : Nat → List Char → Except Unit (List Char)
  | 0, s => .ok s
  | _ + 1, [] => .ok []
  | fuel + 1, c :: cs =>
    if c = '&' then
      match cs with
      | '#' :: rest =>
        match rest.takeWhile Char.isDigit with
        | [] => (decEntGo fuel cs).map (fun r => c :: r)
        | d :: ds =>
          match rest.drop (d :: ds).length with
          | ';' :: rest2 =>
            if digitsToNat (d :: ds) > 0x10FFFF then .error ()
            else (decEntGo fuel rest2).map (fun r => Char.ofNat (digitsToNat (d :: ds)) :: r)
          | _ => (decEntGo fuel cs).map (fun r => c :: r)
      | _ => (decEntGo fuel cs).map (fun r => c :: r)
    else (decEntGo fuel cs).map (fun r => c :: r)

/-- `re.sub(r'&#x([0-9a-fA-F]+);', lambda m: chr(int(m.group(1), 16)), text)`
(the `x` is case-sensitive in the source pattern). -/
def hexEntGo : Nat → List Char → Except Unit (List Char)
  | 0, s => .ok s
  | _ + 1, [] => .ok []
  | fuel + 1, c :: cs =>
    if c = '&' then
      match cs with
      | '#' :: 'x' :: rest =>
        match rest.takeWhile (fun d => (hexVal d).isSome) with
        | [] => (hexEntGo fuel cs).map (fun r => c :: r)
        | d :: ds =>
          match rest.drop (d :: ds).length with
          | ';' :: rest2 =>
            if hexDigitsToNat (d :: ds) > 0x10FFFF then .error ()
            else (hexEntGo fuel rest2).map (fun r => Char.ofNat (hexDigitsToNat (d :: ds)) :: r)
          | _ => (hexEntGo fuel cs).map (fun r => c :: r)
      | _ => (hexEntGo fuel cs).map (fun r => c :: r)
    else (hexEntGo fuel cs).map (fun r => c :: r)

/-- `HTMLParser._decode_html_entities` (html_parser.py:61-89). -/
def decodeHtmlEntities (t : List Char) : Except Unit (List Char) :=
  let t1 := entityTable.foldl (fun s pr => replaceAllL pr.1 pr.2 s) t
  match decEntGo (t1.length + 1) t1 with
  | .error e => .error e
  | .ok t2 => hexEntGo (t2.length + 1) t2

/-- `re.sub(r'\s+', ' ', line)`: collapse each maximal whitespace run
to one space (`prevWS` tracks whether the previous character was part of
a run). -/
def collapseWSGo (prevWS : Bool) : List Char → List Char
  | [] => []
  | c :: cs =>
    if pyWhitespaceChar c then
      if prevWS then collapseWSGo true cs
      else ' ' :: collapseWSGo true cs
    else c :: collapseWSGo false cs

/-- `str.split('\n')`. -/
def splitLinesNL : List Char → List (List Char)
  | [] => [[]]
  | '\n' :: rest => [] :: splitLinesNL rest
  | c :: rest =>
    match splitLinesNL rest with
    | l :: ls => (c :: l) :: ls
    | [] => [[c]]

/-- `re.sub(r'\n{3,}', '\n\n', text)`: keep at most two newlines of any
run (`run` counts the newlines already kept in the current run). -/
def limitNLGo (run : Nat) : List Char → List Char
  | [] => []
  | c :: cs =>
    if c = '\n' then
      if run ≥ 2 then limitNLGo run cs
      else '\n' :: limitNLGo (run + 1) cs
    else c :: limitNLGo 0 cs

/-- `HTMLParser.extract_text` (html_parser.py:17-59).  The `.error`
value is the `ValueError` raised by `chr` on a numeric entity above
`0x10FFFF`; nothing in `extract_text` catches it. -/
def extract_text (html : List Char) : Except Unit (List Char) :=
  if html = [] then .ok []
  else
    let h1 := removeTagsList.foldl (fun h tag => removeTagBlock tag h) html
    let h2 := blockTagsList.foldl
      (fun h tag => subLiteralCI ('<' :: '/' :: tag ++ ['>']) ['\n']
        (subOpenTag ('<' :: tag) ['\n'] h)) h1
    let h3 := subOpenTag "<br".data ['\n'] h2
    let h4 := subOpenTag "<hr".data "\n---\n".data h3
    let h5 := subAnyTag h4
    match decodeHtmlEntities h5 with
    | .error e => .error e
    | .ok h6 =>
      let cleaned := ((splitLinesNL h6).map
        (fun l => collapseWSGo false (pyStrip l))).filter (fun l => l ≠ [])
      .ok (pyStrip (limitNLGo 0 (joinNL cleaned)))

/-! ## `HTTPClient._process_response_body` (http_client.py:173-214)

In the source, `_parse_response` returns a single dict that mixes the
int `status_code`, the str `status_message` and the lower-cased header
lines; `_process_response_body` reads all three back out of it.  The
embedding keeps them as the separate fields of `ParsedResponse` (a
response whose header line is literally named `status_code` or
`status_message` would overwrite the int/str entries in the Python dict;
no claim involves such a header).  The result is `Except RenderErr`:
`httpStatus msg` is the `raise Exception(error_msg)` of the error
branch, `valueError` is the `chr` `ValueError` escaping from the
unprotected `extract_text` calls. -/

inductive RenderErr where
  | httpStatus (msg : List Char)
  | valueError
deriving Repr, DecidableEq

/-- `f"HTTP {status_code} {headers.get('status_message', '')}"`. -/
def httpBase (r : ParsedResponse) : List Char :=
  "HTTP ".data ++ intStr r.status_code ++ ' ' :: r.status_message.data

/-- `headers.get('content-type', '').lower()`. -/
def contentTypeOf (headers : List (String × String)) : List Char :=
  pyLower ((dlookup "content-type" headers).getD "").data

/-- The `json` error branch: what `error_msg += f"\n..."` appends (empty
when the body parses to a non-dict, where the source appends nothing). -/
def errJsonExtract (body : List Char) : List Char :=
  match loads body with
  | some (.jobj fields) =>
    '\n' :: (match dlookup "error" fields with
      | some v => pyStrJ (body.length + 2) v
      | none =>
        match dlookup "message" fields with
        | some v => pyStrJ (body.length + 2) v
        | none => body.take 200)
  | some _ => []
  | none => '\n' :: body.take 200

/-- The HTML error branch after `extract_text` (append the first 200
characters of the extracted text when its strip is non-empty). -/
def errHtmlCase : Except Unit (List Char) → List Char → RenderErr
  | .error _, _ => .valueError
  | .ok text, base =>
    if pyStrip text ≠ [] then .httpStatus (base ++ '\n' :: text.take 200)
    else .httpStatus base

/-- The whole `status_code >= 400` branch: the exception raised. -/
def errPath (ct base body : List Char) : RenderErr :=
  if body = [] then .httpStatus base
  else if hasSubstr "json".data ct then .httpStatus (base ++ errJsonExtract body)
  else errHtmlCase (extract_text body) base

/-- Success-path `json` branch (`except json.JSONDecodeError` only). -/
def okJsonCase : Option JVal → List Char → List Char
  | some v, body => format_json (body.length + 2) v
  | none, body => "Invalid JSON response:\n".data ++ body

/-- Success-path HTML branch. -/
def okHtmlCase : Except Unit (List Char) → Except RenderErr (List Char)
  | .error _ => .error .valueError
  | .ok text =>
    .ok (if pyStrip text ≠ [] then text else "No readable content found.".data)

/-- `HTTPClient._process_response_body`. -/
def processBody (r : ParsedResponse) : Except RenderErr (List Char) :=
  let ct := contentTypeOf r.headers
  if 400 ≤ r.status_code then .error (errPath ct (httpBase r) r.body.data)
  else if hasSubstr "json".data ct then .ok (okJsonCase (loads r.body.data) r.body.data)
  else if hasSubstr "html".data ct || hasSubstr "<html".data (pyLower r.body.data) then
    okHtmlCase (extract_text r.body.data)
  else .ok r.body.data

/-- Every outcome of the error branch: either the `ValueError` escaping
from `extract_text`, or the raised `Exception` whose message starts with
the `HTTP {code} {message}` base. -/
theorem errPath_cases (ct base body : List Char) :
    errPath ct base body = RenderErr.valueError ∨
    ∃ m, errPath ct base body = RenderErr.httpStatus m ∧ List.IsPrefix base m := by
  rw [errPath]
  by_cases hb : body = []
  · rw [if_pos hb]
    exact Or.inr ⟨base, rfl, List.prefix_rfl⟩
  · rw [if_neg hb]
    by_cases hj : hasSubstr "json".data ct = true
    · rw [if_pos hj]
      exact Or.inr ⟨_, rfl, ⟨_, rfl⟩⟩
    · rw [if_neg hj]
      cases hx : extract_text body with
      | error e => rw [errHtmlCase]; exact Or.inl rfl
      | ok text =>
        rw [errHtmlCase]
        by_cases ht : pyStrip text = []
        · rw [if_neg (not_not_intro ht)]
          exact Or.inr ⟨base, rfl, List.prefix_rfl⟩
        · rw [if_pos ht]
          exact Or.inr ⟨_, rfl, ⟨_, rfl⟩⟩

/-- C8 (counterexample): rendering a response with `status_code = 404`,
content type `text/html` and body `&#1114112;` does not raise the
`HTTP ...` exception — the numeric-entity lambda calls
`chr(1114112)`, whose `ValueError` escapes the unprotected
`extract_text` call inside the error branch.  So rendering does not
raise `HttpStatusError` exactly when `status_code >= 400`. -/
theorem C8_counterexample :
    processBody ⟨404, "Not Found", [("content-type", "text/html")], "&#1114112;"⟩ =
      Except.error RenderErr.valueError := rfl

/-- C8 (amended): for every parsed response with `status_code >= 400`,
rendering raises — either the `HTTP {code} {message}`-prefixed
exception, or the `ValueError` from a bad numeric entity in an HTML
error body; conversely, below 400 the only possible exception is that
`ValueError`.  On the success path: `application/json` body `{"a":1}`
renders as `a: 1`; `text/html` body `<p>Hi</p>` renders as `Hi`; and
whenever the HTML branch extracts text whose strip is empty, the result
is the fixed sentinel `No readable content found.`. -/
theorem C8_content_negotiation :
    (∀ r : ParsedResponse, 400 ≤ r.status_code →
      processBody r = Except.error RenderErr.valueError ∨
      ∃ m, processBody r = Except.error (RenderErr.httpStatus m) ∧
        List.IsPrefix (httpBase r) m) ∧
    (∀ (r : ParsedResponse) (e : RenderErr), r.status_code < 400 →
      processBody r = Except.error e → e = RenderErr.valueError) ∧
    processBody ⟨200, "OK", [("content-type", "application/json")], "\x7b\"a\":1\x7d"⟩ =
      Except.ok "a: 1".data ∧
    processBody ⟨200, "OK", [("content-type", "text/html")], "<p>Hi</p>"⟩ =
      Except.ok "Hi".data ∧
    (∀ (r : ParsedResponse) (text : List Char), r.status_code < 400 →
      hasSubstr "json".data (contentTypeOf r.headers) = false →
      (hasSubstr "html".data (contentTypeOf r.headers) ||
        hasSubstr "<html".data (pyLower r.body.data)) = true →
      extract_text r.body.data = Except.ok text → pyStrip text = [] →
      processBody r = Except.ok "No readable content found.".data) := by
  refine ⟨?_, ?_, rfl, rfl, ?_⟩
  · intro r hge
    rw [processBody]
    rw [if_pos hge]
    rcases errPath_cases (contentTypeOf r.headers) (httpBase r) r.body.data with h | ⟨m, hm, hp⟩
    · exact Or.inl (by rw [h])
    · exact Or.inr ⟨m, by rw [hm], hp⟩
  · intro r e hlt heq
    rw [processBody, if_neg (by omega)] at heq
    by_cases hj : hasSubstr "json".data (contentTypeOf r.headers) = true
    · rw [if_pos hj] at heq
      exact absurd heq (by simp)
    · rw [if_neg hj] at heq
      by_cases hh : (hasSubstr "html".data (contentTypeOf r.headers) ||
          hasSubstr "<html".data (pyLower r.body.data)) = true
      · rw [if_pos hh] at heq
        cases hx : extract_text r.body.data with
        | error u =>
          rw [hx, okHtmlCase] at heq
          exact (Except.error.injEq _ _).mp heq.symm ▸ rfl
        | ok text =>
          rw [hx, okHtmlCase] at heq
          exact absurd heq (by simp)
      · rw [if_neg hh] at heq
        exact absurd heq (by simp)
  · intro r text hlt hj hh hx hstrip
    rw [processBody, if_neg (by omega), if_neg (by simp [hj]), if_pos hh, hx, okHtmlCase,
      if_neg (not_not_intro hstrip)]

/-- Witness for `C8_content_negotiation`: the error clause at a concrete
404 response with an empty body, and the sentinel clause at a concrete
200 `text/html` response whose body extracts to whitespace only. -/
theorem C8_content_negotiation_witness :
    (processBody ⟨404, "Not Found", [], ""⟩ = Except.error RenderErr.valueError ∨
     ∃ m, processBody ⟨404, "Not Found", [], ""⟩ = Except.error (RenderErr.httpStatus m) ∧
       List.IsPrefix (httpBase ⟨404, "Not Found", [], ""⟩) m) ∧
    processBody ⟨200, "OK", [("content-type", "text/html")], "<p>   </p>"⟩ =
      Except.ok "No readable content found.".data :=
  ⟨C8_content_negotiation.1 ⟨404, "Not Found", [], ""⟩ (by decide),
   C8_content_negotiation.2.2.2.2 ⟨200, "OK", [("content-type", "text/html")], "<p>   </p>"⟩ []
     (by decide) rfl rfl rfl rfl⟩

/-! ## Redirect location resolution (http_client.py:81-93)

The redirect branch of `_make_request` rewrites the `location` header
before recursing.  `resolveLocation` is that rewrite, translated from
the source: a `none` result means the branch was not taken (no header,
or an empty header string — `if location:` is Python truthiness) and the
response is processed as final.  `resolveLocationSpec` follows the words
of the spec instead ("does not begin with an absolute scheme"), with an
absolute scheme read as RFC 3986 `ALPHA *(ALPHA / DIGIT / + / - / .)`
followed by `://`; the two are compared in the C5 theorems. -/

/-- Python `str.startswith`. -/
def pyStartsWith (pre s : String) : Bool := pre.data.isPrefixOf s.data

/-- Python `str.lstrip('/')`. -/
def lstripSlash (s : String) : String := String.mk (s.data.dropWhile (fun c => c = '/'))

/-- `f"{parsed.scheme}://{host}:{port}"`. -/
def baseUrl (scheme host : String) (port : Nat) : String :=
  scheme ++ "://" ++ host ++ ":" ++ String.mk (natStr port)

/-- The location rewrite of the redirect branch (http_client.py:82-93),
from the source. -/
def resolveLocation (scheme host : String) (port : Nat) (location : Option String) :
    Option String :=
  match location with
  | none => none
  | some loc =>
    if loc = "" then none
    else if pyStartsWith "/" loc then some (baseUrl scheme host port ++ loc)
    else if ¬ pyStartsWith "http" loc then
      some (baseUrl scheme host port ++ "/" ++ lstripSlash loc)
    else some loc

def isSchemeTailChar (c : Char) : Bool := c.isAlphanum || c = '+' || c = '-' || c = '.'

/-- Whether a URL reference begins with an absolute scheme
(`scheme://`). -/
def hasAbsoluteScheme (loc : String) : Bool :=
  match loc.data with
  | [] => false
  | c :: rest => c.isAlpha && ((rest.dropWhile isSchemeTailChar).take 3 == [':', '/', '/'])

/-- The location rewrite as the SPEC words it: begins with `/` → resolve
against scheme/host/port; does not begin with an absolute scheme →
concatenate base, `/` and the location; absent header → final response
(an absolute-scheme location is used as is, which the spec leaves
implicit). -/
def resolveLocationSpec (scheme host : String) (port : Nat) (location : Option String) :
    Option String :=
  match location with
  | none => none
  | some loc =>
    if pyStartsWith "/" loc then some (baseUrl scheme host port ++ loc)
    else if ¬ hasAbsoluteScheme loc then some (baseUrl scheme host port ++ "/" ++ loc)
    else some loc

/-- C5 (counterexample): the source tests `location.startswith('http')`,
not "begins with an absolute scheme": the location `httpx` has no
absolute scheme (no `:` at all, so this holds under any reading of
"absolute scheme"), yet the code forwards it verbatim while the spec's
rule would concatenate it onto the base; and an empty-but-present
location header makes the code treat the response as final, where the
spec's concatenation case would apply. -/
theorem C5_counterexample :
    resolveLocation "http" "example.com" 80 (some "httpx") = some "httpx" ∧
    resolveLocationSpec "http" "example.com" 80 (some "httpx") =
      some "http://example.com:80/httpx" ∧
    (some "httpx" : Option String) ≠ some "http://example.com:80/httpx" ∧
    resolveLocation "http" "example.com" 80 (some "") = none ∧
    resolveLocationSpec "http" "example.com" 80 (some "") = some "http://example.com:80/" :=
  ⟨rfl, rfl, by decide, rfl, rfl⟩

/-- C5 (amended): an absent or empty location leaves the response final;
a location beginning with `/` resolves against the current
scheme/host/port; a location that does not begin with the literal string
`http` becomes base + `/` + location(with leading slashes stripped, a
no-op here); and a location beginning with the literal `http` is used
verbatim. -/
theorem C5_location_resolution (scheme host : String) (port : Nat) (loc : String) :
    resolveLocation scheme host port none = none ∧
    resolveLocation scheme host port (some "") = none ∧
    (pyStartsWith "/" loc = true →
      resolveLocation scheme host port (some loc) = some (baseUrl scheme host port ++ loc)) ∧
    (loc ≠ "" → pyStartsWith "/" loc = false → pyStartsWith "http" loc = false →
      resolveLocation scheme host port (some loc) =
        some (baseUrl scheme host port ++ "/" ++ lstripSlash loc)) ∧
    (loc ≠ "" → pyStartsWith "http" loc = true →
      resolveLocation scheme host port (some loc) = some loc) := by
  refine ⟨rfl, rfl, ?_, ?_, ?_⟩
  · intro hs
    have hne : loc ≠ "" := by
      intro h
      rw [h] at hs
      exact Bool.noConfusion hs
    rw [resolveLocation]
    rw [if_neg hne, if_pos hs]
  · intro hne hs hh
    rw [resolveLocation, if_neg hne, if_neg (by simp [hs]), if_pos (by simp [hh])]
  · intro hne hh
    have hs : pyStartsWith "/" loc = false := by
      cases hl : loc.data with
      | nil => simp [pyStartsWith, hl]
      | cons c cs =>
        have hc : c = 'h' := by
          have hh2 := hh
          simp [pyStartsWith, hl, List.isPrefixOf] at hh2
          exact hh2.1.symm
        simp [pyStartsWith, hl, List.isPrefixOf, hc]
    rw [resolveLocation, if_neg hne, if_neg (by simp [hs]), if_neg (by simp [hh])]

/-- Witness for `C5_location_resolution`: the three rewrite cases at
concrete locations. -/
theorem C5_location_resolution_witness :
    resolveLocation "http" "h" 80 (some "/a") = some "http://h:80/a" ∧
    resolveLocation "http" "h" 80 (some "b") = some "http://h:80/b" ∧
    resolveLocation "http" "h" 80 (some "http://x/") = some "http://x/" :=
  ⟨(C5_location_resolution "http" "h" 80 "/a").2.2.1 rfl,
   (C5_location_resolution "http" "h" 80 "b").2.2.2.1 (by decide) rfl rfl,
   (C5_location_resolution "http" "h" 80 "http://x/").2.2.2.2 (by decide) rfl⟩

/-! ## `HTTPClient._make_request` (http_client.py:36-107)

The request cycle, over a network oracle `NetEnv` mapping the requested
URL to the raw response bytes (the socket connect/send/receive of lines
57-75; the oracle is keyed on the URL string after the scheme-defaulting
step, which determines host, port and path in the source).  URL parsing
is the subset of `urllib.parse.urlparse` the function uses: `scheme`,
`hostname` (lower-cased, after the last `@` of the netloc; bracketed
IPv6 literals are out of scope) and `port` (`int(...)`, range-checked,
raising `ValueError` on junk — that access happens before the host
check and outside the `try`).  The `except Exception as e: raise
Exception(f"Request failed: {str(e)}")` of line 105 wraps every failure
raised inside the `try` — including the `Too many redirects` raised by
a recursive call — one `requestFailed` layer per frame; `rootErr` strips
the layers.  The recursion is driven by a fuel argument so that it is
structural; `makeRequest` starts with fuel `maxR + 2` while the hop
guard stops every chain at `count = maxR + 1`, so `fuelOut` is
unreachable. -/

/-- The scheme split of `urlparse`: a valid scheme before the first
`:`, lower-cased, with the remainder. -/
def urlSchemeSplit (url : String) : Option (String × String) :=
  let pre := url.data.takeWhile (fun c => c ≠ ':')
  if pre.length < url.data.length ∧ pre ≠ [] ∧
      (pre.headD 'a').isAlpha = true ∧ pre.all isSchemeTailChar = true then
    some (String.mk (pyLower pre), String.mk (url.data.drop (pre.length + 1)))
  else none

/-- `urlparse(url).scheme` (empty string when absent). -/
def urlScheme (url : String) : String :=
  match urlSchemeSplit url with
  | some pr => pr.1
  | none => ""

/-- `urlparse(url).netloc`: present only after `//`, ending at `/`,
`?` or `#`. -/
def urlNetloc (url : String) : List Char :=
  let rest := match urlSchemeSplit url with
    | some pr => pr.2.data
    | none => url.data
  match rest with
  | '/' :: '/' :: tail => tail.takeWhile (fun c => c ≠ '/' ∧ c ≠ '?' ∧ c ≠ '#')
  | _ => []

/-- `urlparse(url).hostname` and `.port`: host after the last `@`,
lower-cased; port after the first `:` of the host info, through
`int(...)` with the 0-65535 range check (`.error` is the `ValueError`
raised on access). -/
def urlHostPort (url : String) : Except Unit (String × Option Nat) :=
  let hostinfo := ((urlNetloc url).reverse.takeWhile (fun c => c ≠ '@')).reverse
  let hostPart := hostinfo.takeWhile (fun c => c ≠ ':')
  let host := String.mk (pyLower hostPart)
  if hostPart.length = hostinfo.length then Except.ok (host, none)
  else
    let portStr := hostinfo.drop (hostPart.length + 1)
    if portStr = [] then Except.ok (host, none)
    else
      match pyIntOfString portStr with
      | some v => if 0 ≤ v ∧ v ≤ 65535 then Except.ok (host, some v.toNat) else Except.error ()
      | none => Except.error ()

/-- The network: raw response bytes for a requested URL. -/
structure NetEnv where
  net : String → List Nat

/-- The failure modes of `_make_request`.  `requestFailed` is the
generic handler's re-raise (`Request failed: {str(e)}`); `fuelOut` is
the structural-recursion artifact, unreachable from `makeRequest`. -/
inductive Err where
  | tooManyRedirects
  | invalidUrl
  | badPort
  | malformed (e : ParseErr)
  | httpError (msg : List Char)
  | valueErr
  | requestFailed (e : Err)
  | fuelOut
deriving Repr, DecidableEq

/-- `[301, 302, 303, 307, 308]` (http_client.py:80). -/
def redirectCodes : List Int := [301, 302, 303, 307, 308]

/-- `443 if parsed.scheme == 'https' else 80`. -/
def defaultPort (scheme : String) : Nat := if scheme = "https" then 443 else 80

/-- `parsed.port or (...)`: a `None` or `0` port is falsy. -/
def effPort (scheme : String) : Option Nat → Nat
  | some p => if p = 0 then defaultPort scheme else p
  | none => defaultPort scheme

/-- Wrap an error of a nested `_make_request` call (raised inside this
frame's `try`) in this frame's generic handler. -/
def wrapReq : Except Err (List Char) → Except Err (List Char)
  | .ok out => .ok out
  | .error e => .error (.requestFailed e)

/-- Outcome of `_process_response_body` seen through this frame's
generic handler. -/
def wrapBody : Except RenderErr (List Char) → Except Err (List Char)
  | .ok out => .ok out
  | .error (.httpStatus m) => .error (.requestFailed (.httpError m))
  | .error .valueError => .error (.requestFailed .valueErr)

/-- `if location:` — follow the rewritten location, or fall through to
body processing. -/
def locCase (recurse : String → Except Err (List Char)) (r : ParsedResponse) :
    Option String → Except Err (List Char)
  | some nextUrl => wrapReq (recurse nextUrl)
  | none => wrapBody (processBody r)

/-- The redirect test and dispatch (http_client.py:80-96). -/
def redirectCase (follow : Bool) (scheme host : String) (port : Nat)
    (recurse : String → Except Err (List Char)) (r : ParsedResponse) :
    Except Err (List Char) :=
  if follow && redirectCodes.contains r.status_code then
    locCase recurse r (resolveLocation scheme host port (dlookup "location" r.headers))
  else wrapBody (processBody r)

/-- After `_parse_response`: a parse failure is re-raised wrapped by the
generic handler. -/
def afterParse (follow : Bool) (scheme host : String) (port : Nat)
    (recurse : String → Except Err (List Char)) :
    Except ParseErr ParsedResponse → Except Err (List Char)
  | .error pe => .error (.requestFailed (.malformed pe))
  | .ok r => redirectCase follow scheme host port recurse r

/-- `if not host: raise ValueError(...)`, then the `try` body. -/
def hostCase (env : NetEnv) (follow : Bool) (url2 : String)
    (recurse : String → Except Err (List Char)) (hp : String × Option Nat) :
    Except Err (List Char) :=
  if hp.1 = "" then .error .invalidUrl
  else afterParse follow (urlScheme url2) hp.1 (effPort (urlScheme url2) hp.2) recurse
    (parseResponse (env.net url2))

/-- Dispatch on the port `ValueError` (raised before the `try`, hence
unwrapped in this frame). -/
def hostPortCase (env : NetEnv) (follow : Bool) (url2 : String)
    (recurse : String → Except Err (List Char)) :
    Except Unit (String × Option Nat) → Except Err (List Char)
  | .error _ => .error .badPort
  | .ok hp => hostCase env follow url2 recurse hp

/-- One frame of `_make_request` at hop counter `count`: the
`redirect_count > self.max_redirects` guard, the `http://` scheme
defaulting, then URL parsing and the `try` body. -/
def makeRequestGo (env : NetEnv) (maxR : Nat) (follow : Bool) :
    Nat → String → Nat → Except Err (List Char)
  | 0, _, _ => .error .fuelOut
  | fuel + 1, url, count =>
    if count > maxR then .error .tooManyRedirects
    else
      hostPortCase env follow (if urlScheme url = "" then "http://" ++ url else url)
        (fun nextUrl => makeRequestGo env maxR follow fuel nextUrl (count + 1))
        (urlHostPort (if urlScheme url = "" then "http://" ++ url else url))

/-- `_make_request(url)` with `redirect_count = 0`. -/
def makeRequest (env : NetEnv) (maxR : Nat) (follow : Bool) (url : String) :
    Except Err (List Char) :=
  makeRequestGo env maxR follow (maxR + 2) url 0

/-- Strip the `Request failed:` wrappers down to the root cause. -/
def rootErr : Err → Err
  | .requestFailed e => rootErr e
  | .tooManyRedirects => .tooManyRedirects
  | .invalidUrl => .invalidUrl
  | .badPort => .badPort
  | .malformed e => .malformed e
  | .httpError m => .httpError m
  | .valueErr => .valueErr
  | .fuelOut => .fuelOut

/-- `k` nested `Request failed:` wrappers. -/
def iterWrap : Nat → Err → Err
  | 0, e => e
  | k + 1, e => .requestFailed (iterWrap k e)

/-- A two-URL network for the C4 witness: `http://a:80/` answers with a
301 redirect to `http://b:80/`, which answers `200 OK` with body
`hi`. -/
def netC4 : NetEnv :=
  ⟨fun url =>
    if url = "http://a:80/" then
      strBytes "HTTP/1.1 301 Moved\r\nLocation: http://b:80/\r\n\r\n"
    else
      strBytes "HTTP/1.1 200 OK\r\nContent-Type: text/plain\r\n\r\nhi"⟩

def usC4 : Nat → String := fun i => if i = 0 then "http://a:80/" else "http://b:80/"

def hsC4 : Nat → String := fun i => if i = 0 then "a" else "b"

def poC4 : Nat → Option Nat := fun _ => some 80

def rsC4 : Nat → ParsedResponse := fun i =>
  if i = 0 then ⟨301, "Moved", [("location", "http://b:80/")], ""⟩
  else ⟨200, "OK", [("content-type", "text/plain")], "hi"⟩

/-- A location that begins with the literal `http` is forwarded
verbatim by the redirect rewrite. -/
theorem resolveLocation_verbatim (scheme host : String) (port : Nat) (loc : String)
    (hh : pyStartsWith "http" loc = true) :
    resolveLocation scheme host port (some loc) = some loc := by
  have hne : loc ≠ "" := by
    intro h
    rw [h] at hh
    exact Bool.noConfusion hh
  have hs : pyStartsWith "/" loc = false := by
    cases hl : loc.data with
    | nil => simp [pyStartsWith, hl]
    | cons c cs =>
      have hc : c = 'h' := by
        have hh2 := hh
        simp [pyStartsWith, hl, List.isPrefixOf] at hh2
        exact hh2.1.symm
      simp [pyStartsWith, hl, List.isPrefixOf, hc]
  rw [resolveLocation, if_neg hne, if_neg (by simp [hs]), if_neg (by simp [hh])]

theorem rootErr_iterWrap (k : Nat) (e : Err) : rootErr (iterWrap k e) = rootErr e := by
  induction k with
  | zero => rfl
  | succ k ih => rw [iterWrap, rootErr, ih]

section RedirectChain

variable {env : NetEnv} {maxR n : Nat} {us hs : Nat → String}
  {po : Nat → Option Nat} {rs : Nat → ParsedResponse} {out : List Char}

/-- One frame of a well-formed chain unfolds to its redirect
dispatch. -/
theorem chain_step_eq
    (hscheme : ∀ i, i ≤ n → urlScheme (us i) ≠ "")
    (hhp : ∀ i, i ≤ n → urlHostPort (us i) = Except.ok (hs i, po i))
    (hhost : ∀ i, i ≤ n → hs i ≠ "")
    (hres : ∀ i, i ≤ n → parseResponse (env.net (us i)) = Except.ok (rs i))
    (i : Nat) (hi : i ≤ n) (hcnt : ¬ i > maxR) (fuel : Nat) :
    makeRequestGo env maxR true (fuel + 1) (us i) i =
      redirectCase true (urlScheme (us i)) (hs i) (effPort (urlScheme (us i)) (po i))
        (fun nextUrl => makeRequestGo env maxR true fuel nextUrl (i + 1)) (rs i) := by
  rw [makeRequestGo, if_neg hcnt, if_neg (hscheme i hi), hhp i hi, hostPortCase, hostCase,
    if_neg (hhost i hi), hres i hi, afterParse]

/-- A chain of `n ≤ maxR` redirect hops ending in a cleanly rendered
non-redirect response succeeds from any position. -/
theorem chain_succeeds
    (hscheme : ∀ i, i ≤ n → urlScheme (us i) ≠ "")
    (hhp : ∀ i, i ≤ n → urlHostPort (us i) = Except.ok (hs i, po i))
    (hhost : ∀ i, i ≤ n → hs i ≠ "")
    (hres : ∀ i, i ≤ n → parseResponse (env.net (us i)) = Except.ok (rs i))
    (hredir : ∀ i, i < n → redirectCodes.contains (rs i).status_code = true)
    (hloc : ∀ i, i < n → dlookup "location" (rs i).headers = some (us (i + 1)))
    (hhttp : ∀ i, i < n → pyStartsWith "http" (us (i + 1)) = true)
    (hfinal : redirectCodes.contains (rs n).status_code = false)
    (hbody : processBody (rs n) = Except.ok out)
    (hn : n ≤ maxR) :
    ∀ k i, i + k = n → makeRequestGo env maxR true (maxR + 2 - i) (us i) i = Except.ok out := by
  intro k
  induction k with
  | zero =>
    intro i hi
    have hin : i = n := by omega
    subst hin
    have hfe : maxR + 2 - i = (maxR + 1 - i) + 1 := by omega
    rw [hfe, chain_step_eq hscheme hhp hhost hres i le_rfl (by omega), redirectCase,
      if_neg (by simpa using hfinal), hbody, wrapBody]
  | succ k ih =>
    intro i hi
    have hilt : i < n := by omega
    have hfe : maxR + 2 - i = (maxR + 1 - i) + 1 := by omega
    rw [hfe, chain_step_eq hscheme hhp hhost hres i (by omega) (by omega), redirectCase,
      if_pos (by simpa using hredir i hilt), hloc i hilt,
      resolveLocation_verbatim _ _ _ _ (hhttp i hilt), locCase]
    have hfe2 : maxR + 1 - i = maxR + 2 - (i + 1) := by omega
    rw [hfe2]
    show wrapReq (makeRequestGo env maxR true (maxR + 2 - (i + 1)) (us (i + 1)) (i + 1)) =
      Except.ok out
    rw [ih (i + 1) (by omega), wrapReq]

/-- When the chain has more hops than `maxR`, the frame at hop counter
`i` fails with the `Too many redirects` raise wrapped once per frame
between `i` and `maxR + 1`. -/
theorem chain_fails
    (hscheme : ∀ i, i ≤ n → urlScheme (us i) ≠ "")
    (hhp : ∀ i, i ≤ n → urlHostPort (us i) = Except.ok (hs i, po i))
    (hhost : ∀ i, i ≤ n → hs i ≠ "")
    (hres : ∀ i, i ≤ n → parseResponse (env.net (us i)) = Except.ok (rs i))
    (hredir : ∀ i, i < n → redirectCodes.contains (rs i).status_code = true)
    (hloc : ∀ i, i < n → dlookup "location" (rs i).headers = some (us (i + 1)))
    (hhttp : ∀ i, i < n → pyStartsWith "http" (us (i + 1)) = true)
    (hgt : maxR < n) :
    ∀ k i, i + k = maxR + 1 →
      makeRequestGo env maxR true (maxR + 2 - i) (us i) i =
        Except.error (iterWrap k Err.tooManyRedirects) := by
  intro k
  induction k with
  | zero =>
    intro i hi
    have hie : i = maxR + 1 := by omega
    subst hie
    have hfe : maxR + 2 - (maxR + 1) = 0 + 1 := by omega
    rw [hfe, makeRequestGo, if_pos (by omega)]
    rfl
  | succ k ih =>
    intro i hi
    have hile : i ≤ maxR := by omega
    have hilt : i < n := by omega
    have hfe : maxR + 2 - i = (maxR + 1 - i) + 1 := by omega
    rw [hfe, chain_step_eq hscheme hhp hhost hres i (by omega) (by omega), redirectCase,
      if_pos (by simpa using hredir i hilt), hloc i hilt,
      resolveLocation_verbatim _ _ _ _ (hhttp i hilt), locCase]
    have hfe2 : maxR + 1 - i = maxR + 2 - (i + 1) := by omega
    rw [hfe2]
    show wrapReq (makeRequestGo env maxR true (maxR + 2 - (i + 1)) (us (i + 1)) (i + 1)) =
      Except.error (iterWrap (k + 1) Err.tooManyRedirects)
    rw [ih (i + 1) (by omega), wrapReq, iterWrap]

end RedirectChain

/-- C4: along any well-formed redirect chain (each hop a redirect-coded
response whose location is an absolute `http`-prefixed URL, ending in a
non-redirect response that renders successfully), the request cycle with
redirect-following enabled succeeds when the chain has at most
`max_redirects` hops — in particular exactly `max_redirects` — and with
more hops fails with the `Too many redirects` raise as the root cause
(each enclosing frame wraps it in its generic `Request failed:`
re-raise, which `rootErr` strips). -/
theorem C4_redirect_bound (env : NetEnv) (maxR n : Nat) (us hs : Nat → String)
    (po : Nat → Option Nat) (rs : Nat → ParsedResponse) (out : List Char)
    (hscheme : ∀ i, i ≤ n → urlScheme (us i) ≠ "")
    (hhp : ∀ i, i ≤ n → urlHostPort (us i) = Except.ok (hs i, po i))
    (hhost : ∀ i, i ≤ n → hs i ≠ "")
    (hres : ∀ i, i ≤ n → parseResponse (env.net (us i)) = Except.ok (rs i))
    (hredir : ∀ i, i < n → redirectCodes.contains (rs i).status_code = true)
    (hloc : ∀ i, i < n → dlookup "location" (rs i).headers = some (us (i + 1)))
    (hhttp : ∀ i, i < n → pyStartsWith "http" (us (i + 1)) = true)
    (hfinal : redirectCodes.contains (rs n).status_code = false)
    (hbody : processBody (rs n) = Except.ok out) :
    (n ≤ maxR → makeRequest env maxR true (us 0) = Except.ok out) ∧
    (maxR < n → ∃ e, makeRequest env maxR true (us 0) = Except.error e ∧
      rootErr e = Err.tooManyRedirects) := by
  constructor
  · intro hn
    have h := chain_succeeds hscheme hhp hhost hres hredir hloc hhttp hfinal hbody hn n 0
      (by omega)
    rw [makeRequest]
    exact h
  · intro hgt
    refine ⟨iterWrap (maxR + 1) Err.tooManyRedirects, ?_, ?_⟩
    · have h := chain_fails hscheme hhp hhost hres hredir hloc hhttp hgt (maxR + 1) 0
        (by omega)
      rw [makeRequest]
      exact h
    · rw [rootErr_iterWrap]
      rfl

/-- Witness for `C4_redirect_bound`: on the concrete one-hop chain of
`netC4`, the request succeeds with `max_redirects = 1` (exactly as many
hops as allowed) and fails with root cause `Too many redirects` with
`max_redirects = 0`. -/
theorem C4_redirect_bound_witness :
    makeRequest netC4 1 true "http://a:80/" = Except.ok "hi".data ∧
    ∃ e, makeRequest netC4 0 true "http://a:80/" = Except.error e ∧
      rootErr e = Err.tooManyRedirects :=
  ⟨(C4_redirect_bound netC4 1 1 usC4 hsC4 poC4 rsC4 "hi".data
      (by intro i hi; interval_cases i <;> decide)
      (by intro i hi; interval_cases i <;> rfl)
      (by intro i hi; interval_cases i <;> decide)
      (by intro i hi; interval_cases i <;> rfl)
      (by intro i hi; interval_cases i <;> rfl)
      (by intro i hi; interval_cases i <;> rfl)
      (by intro i hi; interval_cases i <;> rfl)
      rfl rfl).1 (by omega),
   (C4_redirect_bound netC4 0 1 usC4 hsC4 poC4 rsC4 "hi".data
      (by intro i hi; interval_cases i <;> decide)
      (by intro i hi; interval_cases i <;> rfl)
      (by intro i hi; interval_cases i <;> decide)
      (by intro i hi; interval_cases i <;> rfl)
      (by intro i hi; interval_cases i <;> rfl)
      (by intro i hi; interval_cases i <;> rfl)
      (by intro i hi; interval_cases i <;> rfl)
      rfl rfl).2 (by omega)⟩

end Go2Web
